import Mathlib

/-!
Shallow embedding of the MaskGuard core (Mask-Detector repository) and
verification of the frozen claims about it.

Embedded source files:
* `app/services/logger.py`  — `EventLogger` (cooldown gate, event logging)
* `app/routes/ws.py`        — per-detection live-path decision logic
* `app/models/tracker.py`   — `CentroidTracker`
* `app/services/video_worker.py` — batch video worker (`process_video`,
  `JobManager` progress/terminal-state handling)

Python `float` time stamps, confidences and centroid coordinates are
embedded as `ℚ`; machine integers as `ℤ`/`ℕ`.  Python dicts (insertion
ordered) are embedded as association lists with replace-or-append update.
-/

namespace MaskGuard

/-- Python dict lookup on an insertion-ordered association list. -/
def alookup {α β : Type} [DecidableEq α] : List (α × β) → α → Option β
  | [], _ => none
  | (k, v) :: rest, k' => if k = k' then some v else alookup rest k'

/-- Python dict assignment `d[k] = v`: replace the value at an existing key
(keeping its position), otherwise append the new binding. -/
def aset {α β : Type} [DecidableEq α] : List (α × β) → α → β → List (α × β)
  | [], k, v => [(k, v)]
  | (k0, v0) :: rest, k, v =>
      if k0 = k then (k0, v) :: rest else (k0, v0) :: aset rest k v

/-- Truncation toward zero, the semantics of Python `int()` on a float. -/
def ratTrunc (q : ℚ) : ℤ := if 0 ≤ q then ⌊q⌋ else ⌈q⌉

/-! ## Configuration constants (`app/config.py`, default environment) -/

/-- Default `ALERT_COOLDOWN_SECONDS` from `app/config.py`. -/
def ALERT_COOLDOWN_SECONDS : ℤ := 10

/-- `VIOLATION_LABELS` from `app/config.py`. -/
def VIOLATION_LABELS : List String := ["NO_MASK", "MASK_INCORRECT"]

/-- `LABELS` from `app/config.py`. -/
def LABELS : List String := ["MASK_ON", "NO_MASK", "MASK_INCORRECT"]

/-- Default `VIDEO_PROCESS_FPS` from `app/config.py`. -/
def VIDEO_PROCESS_FPS : ℚ := 5

/-! ## `EventLogger` (`app/services/logger.py`) -/

/-- A persisted detection event (the row handed to `db_log_event`). -/
structure Event where
  source : String
  label : String
  confidence : ℚ
  track_id : Option String
  deriving Repr, DecidableEq

/-- State of `EventLogger`: `_last_alert_time` dict, `cooldown_seconds`,
plus the append-only event log standing for the SQLite sink that
`app.db.log_event` writes to. -/
structure EventLogger where
  last_alert_time : List (String × ℚ)
  cooldown_seconds : ℤ
  events : List Event
  deriving Repr, DecidableEq

/-- A fresh `EventLogger()` under the default configuration. -/
def EventLogger.init : EventLogger :=
  { last_alert_time := [], cooldown_seconds := ALERT_COOLDOWN_SECONDS, events := [] }

/-- `app.db.log_event`: append the event, return its row id. -/
def db_log_event (L : EventLogger) (e : Event) : ℤ × EventLogger :=
  (((L.events.length + 1 : ℕ) : ℤ), { L with events := L.events ++ [e] })

/-- `EventLogger.should_alert` (logger.py:15–32).  A never-seen identity
reads `self._last_alert_time.get(track_id, 0)`, i.e. defaults to `0`. -/
def EventLogger.should_alert (L : EventLogger) (now : ℚ) (track_id : String) :
    Bool × EventLogger :=
  let last := (alookup L.last_alert_time track_id).getD 0
  if (L.cooldown_seconds : ℚ) ≤ now - last then
    (true, { L with last_alert_time := aset L.last_alert_time track_id now })
  else
    (false, L)

/-- Python truthiness of the `track_id` argument (an `Optional[str]`). -/
def optStrTruthy : Option String → Bool
  | none => false
  | some s => !(s.isEmpty)

/-- `EventLogger.log_detection` (logger.py:34–94).  Returns
`((event_id, should_alert), new state)`.  The `force_log or
self.should_alert(track_id)` short-circuit is kept: when `force_log` is
true `should_alert` is never called. -/
def EventLogger.log_detection (L : EventLogger) (now : ℚ) (source label : String)
    (confidence : ℚ) (track_id : Option String) (force_log : Bool) :
    (ℤ × Bool) × EventLogger :=
  if source = "live" ∧ optStrTruthy track_id ∧ label ∈ VIOLATION_LABELS then
    if force_log then
      let r := db_log_event L ⟨source, label, confidence, track_id⟩
      ((r.1, true), r.2)
    else
      let sa := L.should_alert now (track_id.getD "")
      if sa.1 then
        let r := db_log_event sa.2 ⟨source, label, confidence, track_id⟩
        ((r.1, true), r.2)
      else
        ((-1, false), sa.2)
  else
    let r := db_log_event L ⟨source, label, confidence, track_id⟩
    ((r.1, decide (label ∈ VIOLATION_LABELS)), r.2)

/-- `EventLogger.set_cooldown` updates `cooldown_seconds` through Python
`max(1, int(seconds))` guarded by `except (TypeError, ValueError)`; the
argument domain and `int()` are modelled below by `PyVal`/`pyIntOf`. -/
def EventLogger.reset_cooldowns (L : EventLogger) : EventLogger :=
  { L with last_alert_time := [] }

/-! ### Python value model for `set_cooldown`'s dynamically-typed argument -/

/-- IEEE float classification sufficient for `int()` conversion. -/
inductive PyFloat where
  | finite (q : ℚ)
  | inf
  | neg_inf
  | nan
  deriving Repr, DecidableEq

/-- Dynamically-typed Python values that can reach `set_cooldown` from the
websocket config message (JSON: numbers, strings, booleans, null). -/
inductive PyVal where
  | int (n : ℤ)
  | bool (b : Bool)
  | float (x : PyFloat)
  | str (s : String)
  | pynone
  deriving Repr, DecidableEq

/-- Python exception classes relevant to `int()`. -/
inductive PyErr where
  | typeError
  | valueError
  | overflowError
  deriving Repr, DecidableEq

/-- Python `int(x)`: truncates numeric values toward zero; parses integer
strings; raises `TypeError` on `None`, `ValueError` on unparsable strings
and `nan`, and `OverflowError` on infinite floats. -/
def pyIntOf : PyVal → Except PyErr ℤ
  | .int n => .ok n
  | .bool b => .ok (if b then 1 else 0)
  | .float (.finite q) => .ok (ratTrunc q)
  | .float .inf => .error .overflowError
  | .float .neg_inf => .error .overflowError
  | .float .nan => .error .valueError
  | .str s =>
      match s.toInt? with
      | some n => .ok n
      | none => .error .valueError
  | .pynone => .error .typeError

/-- `EventLogger.set_cooldown` (logger.py:96–101): `try: self.cooldown_seconds
= max(1, int(seconds)) except (TypeError, ValueError): pass`.  Exceptions
other than `TypeError`/`ValueError` propagate. -/
def EventLogger.set_cooldown (L : EventLogger) (seconds : PyVal) :
    Except PyErr EventLogger :=
  match pyIntOf seconds with
  | .ok n => .ok { L with cooldown_seconds := max 1 n }
  | .error .typeError => .ok L
  | .error .valueError => .ok L
  | .error e => .error e

/-! ## Live-path per-detection decision (`app/routes/ws.py:108–153`) -/

/-- Processing of one tracked face inside `websocket_live`'s frame loop:
for a violation label the cooldown gate is consulted first and, when it
fires, the event is logged with `force_log=True`; otherwise nothing is
logged.  A compliant label is always logged.  Returns the detection's
`alert` flag and the updated logger state.  Snapshot saving is omitted
(storage is out of scope and does not affect the logger state). -/
def wsProcessDetection (L : EventLogger) (now : ℚ) (track_id : ℕ)
    (label : String) (confidence : ℚ) : Bool × EventLogger :=
  let track_id_str := "track_" ++ toString track_id
  if label ∈ VIOLATION_LABELS then
    let sa := L.should_alert now track_id_str
    if sa.1 then
      let r := sa.2.log_detection now "live" label confidence (some track_id_str) true
      (true, r.2)
    else
      (false, sa.2)
  else
    let r := L.log_detection now "live" label confidence (some track_id_str) false
    (false, r.2)

/-! ## `CentroidTracker` (`app/models/tracker.py`) -/

/-- A bounding box `(x1, y1, x2, y2)` in integer pixel coordinates. -/
structure Box where
  x1 : ℤ
  y1 : ℤ
  x2 : ℤ
  y2 : ℤ
  deriving Repr, DecidableEq, Inhabited

/-- A centroid `(cx, cy)`, floating point in the source. -/
abbrev Centroid := ℚ × ℚ

/-- Centroid of a box: `cx = (x1 + x2) / 2.0`, `cy = (y1 + y2) / 2.0`. -/
def centroidOf (b : Box) : Centroid :=
  (((b.x1 + b.x2 : ℤ) : ℚ) / 2, ((b.y1 + b.y2 : ℤ) : ℚ) / 2)

/-- Squared Euclidean distance between centroids.  The source stores
`np.sqrt(dx*dx + dy*dy)` in the distance matrix; the matrix entries are
only ever compared (`min`, `argmin`, `argsort`), and `sqrt` is strictly
monotone on nonnegatives, so all those comparisons coincide with
comparisons of the squared distances embedded here. -/
def dist2 (a b : Centroid) : ℚ :=
  (a.1 - b.1) * (a.1 - b.1) + (a.2 - b.2) * (a.2 - b.2)

/-- State of `CentroidTracker`.  `objects` and `disappeared` embed the two
insertion-ordered dicts keyed by object id. -/
structure CentroidTracker where
  next_object_id : ℕ
  objects : List (ℕ × Centroid)
  disappeared : List (ℕ × ℕ)
  max_disappeared : ℕ
  deriving Repr, DecidableEq

/-- `CentroidTracker(max_disappeared)` constructor. -/
def CentroidTracker.mk0 (max_disappeared : ℕ) : CentroidTracker :=
  { next_object_id := 0, objects := [], disappeared := [], max_disappeared := max_disappeared }

/-- `CentroidTracker.register` (tracker.py:24–38): allocate the next id,
record the centroid, start its disappeared counter at 0. -/
def CentroidTracker.register (t : CentroidTracker) (c : Centroid) :
    ℕ × CentroidTracker :=
  (t.next_object_id,
    { t with
      objects := t.objects ++ [(t.next_object_id, c)]
      disappeared := t.disappeared ++ [(t.next_object_id, 0)]
      next_object_id := t.next_object_id + 1 })

/-- `CentroidTracker.deregister` (tracker.py:40–48). -/
def CentroidTracker.deregister (t : CentroidTracker) (object_id : ℕ) :
    CentroidTracker :=
  { t with
    objects := t.objects.filter (fun p => p.1 != object_id)
    disappeared := t.disappeared.filter (fun p => p.1 != object_id) }

/-- Empty-detection branch of `update` (tracker.py:61–69): every counter is
incremented and any track whose counter now exceeds `max_disappeared` is
deregistered.  (The source iterates over a snapshot of the keys, deleting
only the current key, which is what this batch formulation computes.) -/
def markAllDisappeared (t : CentroidTracker) : CentroidTracker :=
  let removed := t.disappeared.filterMap
    (fun p => if t.max_disappeared < p.2 + 1 then some p.1 else none)
  { t with
    disappeared := t.disappeared.filterMap
      (fun p => if t.max_disappeared < p.2 + 1 then none else some (p.1, p.2 + 1))
    objects := t.objects.filter (fun p => !(removed.contains p.1)) }

/-- Minimum of a row of the distance matrix (`distances.min(axis=1)`). -/
def listMin : List ℚ → ℚ
  | [] => 0
  | x :: t => t.foldl min x

/-- `np.argmin` over one row: the first index attaining the minimum. -/
def argminIdx (l : List ℚ) : ℕ := l.indexOf (listMin l)

/-- `np.argsort` over the row minima: the row indices ordered by ascending
key (`distances.min(axis=1).argsort()`), realized as a stable insertion
sort over the index range. -/
def argsortLe (keys : List ℚ) : List ℕ :=
  List.insertionSort (fun i j => keys.getD i 0 ≤ keys.getD j 0) (List.range keys.length)

/-- The greedy loop's pair selection (tracker.py:110–122): process the
`zip(rows, cols)` pairs in order, skipping any pair whose row or column
was already used, and marking both indices used when a pair is kept. -/
def selectedPairs : List (ℕ × ℕ) → List ℕ → List ℕ → List (ℕ × ℕ)
  | [], _, _ => []
  | p :: rest, used_rows, used_cols =>
      if used_rows.contains p.1 || used_cols.contains p.2 then
        selectedPairs rest used_rows used_cols
      else
        p :: selectedPairs rest (p.1 :: used_rows) (p.2 :: used_cols)

/-- State/result changes of the kept pairs of the greedy loop
(tracker.py:114–122), processed in loop order: move the matched track to
the new centroid, reset its disappeared counter, and emit
`(object_id, boxes[col])`. -/
def applyMatches (object_ids : List ℕ) (input_centroids : List Centroid)
    (boxes : List Box) : List (ℕ × ℕ) → CentroidTracker →
    CentroidTracker × List (ℕ × Box)
  | [], t => (t, [])
  | rc :: rest, t =>
      let oid := object_ids.getD rc.1 0
      let t1 : CentroidTracker :=
        { t with
          objects := aset t.objects oid (input_centroids.getD rc.2 (0, 0))
          disappeared := aset t.disappeared oid 0 }
      let r := applyMatches object_ids input_centroids boxes rest t1
      (r.1, (oid, boxes.getD rc.2 default) :: r.2)

/-- Unmatched-row handling (tracker.py:124–131), in loop order: increment
the disappeared counter and deregister when it exceeds `max_disappeared`.
The source iterates `set(range(n)) - used_rows`; CPython iterates such
small-int sets in ascending order, which is the order of the filtered range
passed here. -/
def processUnusedRows (object_ids : List ℕ) : List ℕ → CentroidTracker →
    CentroidTracker
  | [], t => t
  | r :: rest, t =>
      let oid := object_ids.getD r 0
      let d := (alookup t.disappeared oid).getD 0 + 1
      let t1 := if t.max_disappeared < d then t.deregister oid
                else { t with disappeared := aset t.disappeared oid d }
      processUnusedRows object_ids rest t1

/-- Registration of a run of `(centroid, box)` pairs in loop order: used
for the no-existing-objects branch (tracker.py:80–85) and the
unmatched-column branch (tracker.py:134–137). -/
def registerAll : CentroidTracker → List (Centroid × Box) →
    CentroidTracker × List (ℕ × Box)
  | t, [] => (t, [])
  | t, it :: rest =>
      let r := t.register it.1
      let rr := registerAll r.2 rest
      (rr.1, (r.1, it.2) :: rr.2)

/-- The pairwise distance matrix of `update` (tracker.py:92–98): rows are
existing-track centroids in dict order, columns are incoming centroids in
box order. -/
def distMatrixOf (t : CentroidTracker) (boxes : List Box) : List (List ℚ) :=
  (t.objects.map (fun p => p.2)).map
    (fun oc => (boxes.map centroidOf).map (fun ic => dist2 oc ic))

/-- `rows = distances.min(axis=1).argsort()` (tracker.py:102). -/
def rowsOf (t : CentroidTracker) (boxes : List Box) : List ℕ :=
  argsortLe ((distMatrixOf t boxes).map listMin)

/-- `cols = distances.argmin(axis=1)[rows]` (tracker.py:103): the column of
each row in `rows` is that row's argmin over ALL columns, precomputed once
before the greedy loop. -/
def colsOf (t : CentroidTracker) (boxes : List Box) : List ℕ :=
  (rowsOf t boxes).map (fun r => argminIdx ((distMatrixOf t boxes).getD r []))

/-- The pairs the greedy loop keeps, starting from empty used sets. -/
def selOf (t : CentroidTracker) (boxes : List Box) : List (ℕ × ℕ) :=
  selectedPairs ((rowsOf t boxes).zip (colsOf t boxes)) [] []

/-- The greedy loop's state changes and matched results
(tracker.py:110–122) applied to `t`. -/
def updateMatched (t : CentroidTracker) (boxes : List Box) :
    CentroidTracker × List (ℕ × Box) :=
  applyMatches (t.objects.map (fun p => p.1)) (boxes.map centroidOf) boxes
    (selOf t boxes) t

/-- `set(range(n)) - used_rows` in CPython's ascending iteration order
(tracker.py:125). -/
def updateUnusedRows (t : CentroidTracker) (boxes : List Box) : List ℕ :=
  (List.range (distMatrixOf t boxes).length).filter
    (fun r => !(((selOf t boxes).map (fun p => p.1)).contains r))

/-- Tracker state after the unmatched-row pass (tracker.py:124–131). -/
def updateT2 (t : CentroidTracker) (boxes : List Box) : CentroidTracker :=
  processUnusedRows (t.objects.map (fun p => p.1)) (updateUnusedRows t boxes)
    (updateMatched t boxes).1

/-- The `(centroid, box)` pairs of the unmatched columns,
`set(range(m)) - used_cols` in ascending order (tracker.py:134–137). -/
def updateNewItems (t : CentroidTracker) (boxes : List Box) :
    List (Centroid × Box) :=
  ((List.range (boxes.map centroidOf).length).filter
    (fun c => !(((selOf t boxes).map (fun p => p.2)).contains c))).map
    (fun c => ((boxes.map centroidOf).getD c (0, 0), boxes.getD c default))

/-- Registration of the unmatched columns (tracker.py:134–137). -/
def updateReg (t : CentroidTracker) (boxes : List Box) :
    CentroidTracker × List (ℕ × Box) :=
  registerAll (updateT2 t boxes) (updateNewItems t boxes)

/-- `CentroidTracker.update` (tracker.py:50–139). -/
def CentroidTracker.update (t : CentroidTracker) (boxes : List Box) :
    CentroidTracker × List (ℕ × Box) :=
  if boxes.isEmpty then
    (markAllDisappeared t, [])
  else
    if t.objects.isEmpty then
      registerAll t ((boxes.map centroidOf).zip boxes)
    else
      ((updateReg t boxes).1, (updateMatched t boxes).2 ++ (updateReg t boxes).2)

/-! ## Batch video worker (`app/services/video_worker.py`) -/

/-- Job status constants (`JobStatus`, video_worker.py:13–18). -/
inductive JobStatus where
  | pending
  | processing
  | completed
  | failed
  deriving Repr, DecidableEq

/-- Frame-sampling stride (video_worker.py:160):
`frame_skip = max(1, int(fps / VIDEO_PROCESS_FPS))` — Python `int()`
truncates toward zero. -/
def frameSkip (fps target_fps : ℚ) : ℕ :=
  max 1 (ratTrunc (fps / target_fps)).toNat

/-- Modelled from the spec (§4.4 step 2), for comparison with `frameSkip`:
"stride = max(1, round(input_fps / target_fps))".  `round` here is
round-half-up; the sentence does not pin down the tie convention, and the
disagreement with the source below is at a non-tie value. -/
def frameSkipSpec (fps target_fps : ℚ) : ℤ :=
  max 1 (round (fps / target_fps))

/-- Progress value set after a sampled frame (video_worker.py:251–252
composed with `JobManager.update_progress`'s clamp, video_worker.py:82):
`min(100, max(0, int((frame_idx / total_frames) * 100)))`.  Embedded
exactly over ℚ, which gives `frame_idx * 100 / total` by natural
division; the source's float rounding can differ by at most one ulp and
preserves monotonicity and the 0–100 range. -/
def progressVal (frame_idx total : ℕ) : ℕ :=
  min 100 (frame_idx * 100 / total)

/-- Observable outcome of the read/process loop (video_worker.py:180–254).
`sampled`: frame indices run through detect/classify; `written`: frame
indices written to the output sink; `trace`: successive progress values
passed to `update_progress`; `readCount`: frames read from the input;
`raised`: whether processing a sampled frame raised an exception. -/
structure LoopOut where
  sampled : List ℕ
  written : List ℕ
  trace : List ℕ
  readCount : ℕ
  raised : Bool
  deriving Repr, DecidableEq

/-- The read/process loop.  Each entry of `frames` is one readable input
frame; `true` means detect/classify on that frame raises an exception
(modelled at the sampled-frame granularity, since detection, classification
and writing all happen inside the sampled branch). -/
def workerLoop (frame_skip total : ℕ) : List Bool → ℕ → LoopOut
  | [], _ => { sampled := [], written := [], trace := [], readCount := 0, raised := false }
  | raises :: rest, frame_idx =>
      if frame_idx % frame_skip = 0 then
        if raises then
          { sampled := [frame_idx], written := [], trace := [], readCount := 1, raised := true }
        else
          let r := workerLoop frame_skip total rest (frame_idx + 1)
          { sampled := frame_idx :: r.sampled
            written := frame_idx :: r.written
            trace := progressVal frame_idx total :: r.trace
            readCount := r.readCount + 1
            raised := r.raised }
      else
        let r := workerLoop frame_skip total rest (frame_idx + 1)
        { r with readCount := r.readCount + 1 }

/-- Observable outcome of one `process_video` run, combined with the job
record fields that the run leaves behind. -/
structure RunResult where
  status : JobStatus
  error : Option String
  progressTrace : List ℕ
  finalProgress : ℕ
  sampled : List ℕ
  written : List ℕ
  readCount : ℕ
  processedFrames : ℕ
  capReleased : Bool
  outReleased : Bool
  deriving Repr, DecidableEq

/-- `process_video` (video_worker.py:126–274).  `rawFps`/`rawTotal` are the
container metadata (`CAP_PROP_FPS`, `CAP_PROP_FRAME_COUNT`) with their
`<= 0` fallbacks applied as in the source; `openOk` is `cap.isOpened()`;
`frames` describes the actually decodable frames as for `workerLoop`.
`cap.release()`/`out.release()` appear only on the normal path
(video_worker.py:257–258); the `except` handler (video_worker.py:271–274)
calls `fail_job` and returns without releasing either handle. -/
def process_video (rawFps : ℚ) (rawTotal : ℤ) (target_fps : ℚ)
    (openOk : Bool) (frames : List Bool) : RunResult :=
  if openOk = false then
    { status := .failed
      error := some "Video processing error: Failed to open video file"
      progressTrace := [], finalProgress := 0, sampled := [], written := []
      readCount := 0, processedFrames := 0
      capReleased := false, outReleased := false }
  else
    let fps := if rawFps ≤ 0 then target_fps else rawFps
    let total : ℕ := if rawTotal ≤ 0 then 1 else rawTotal.toNat
    let skip := frameSkip fps target_fps
    let r := workerLoop skip total frames 0
    if r.raised then
      { status := .failed
        error := some "Video processing error: frame processing raised"
        progressTrace := r.trace
        finalProgress := (r.trace.getLast?).getD 0
        sampled := r.sampled, written := r.written
        readCount := r.readCount, processedFrames := r.written.length
        capReleased := false, outReleased := false }
    else
      { status := .completed
        error := none
        progressTrace := r.trace
        finalProgress := 100
        sampled := r.sampled, written := r.written
        readCount := r.readCount, processedFrames := r.written.length
        capReleased := true, outReleased := true }

/-! ## Association-list helper lemmas -/

theorem alookup_aset_self {α β : Type} [DecidableEq α] (l : List (α × β)) (k : α) (v : β) :
    alookup (aset l k v) k = some v := by
  induction l with
  | nil => simp [aset, alookup]
  | cons p rest ih =>
      by_cases h : p.1 = k
      · simp [aset, alookup, h]
      · simpa [aset, alookup, h] using ih

theorem aset_map_fst_of_mem {α β : Type} [DecidableEq α] (l : List (α × β)) (k : α) (v : β)
    (h : k ∈ l.map (fun p => p.1)) :
    (aset l k v).map (fun p => p.1) = l.map (fun p => p.1) := by
  induction l with
  | nil => simp at h
  | cons p rest ih =>
      by_cases hk : p.1 = k
      · simp [aset, hk]
      · have h' : k ∈ rest.map (fun p => p.1) := by
          simpa [hk, Ne.symm hk] using h
        simp [aset, hk, ih h']

/-! ## Claim C3 — cooldown gate semantics -/

/-- C3 (counterexample): the claim says the first `should_alert` check for a
never-seen identity always returns true (never-seen treated as
`last_alert_time = -infinity`).  In the source a never-seen identity
defaults to `last_alert_time = 0`, so with the default 10-second cooldown a
first check at clock time 5 returns `false`. -/
theorem should_alert_first_check_can_be_false :
    (EventLogger.init.should_alert 5 "t1").1 = false := by
  norm_num [EventLogger.should_alert, EventLogger.init, alookup, ALERT_COOLDOWN_SECONDS]

/-- C3 (amended): `should_alert identity` returns true and records the
current time as the identity's last-alert time iff
`now - last_alert_time >= cooldown_seconds`, where a never-seen identity is
treated as having `last_alert_time = 0` (so a first check returns true iff
`now >= cooldown_seconds`, which always holds for wall-clock epoch
timestamps); when it returns false the state is unchanged.  With
`cooldown_seconds = 10` and a first call at time 100: first call true, a
second call 5 seconds later false, a third call 11 seconds after the first
true. -/
theorem should_alert_amended (L : EventLogger) (now : ℚ) (tid : String) :
    ((L.should_alert now tid).1 = true ↔
      (L.cooldown_seconds : ℚ) ≤ now - ((alookup L.last_alert_time tid).getD 0)) ∧
    ((L.should_alert now tid).1 = true →
      alookup (L.should_alert now tid).2.last_alert_time tid = some now ∧
      (L.should_alert now tid).2.cooldown_seconds = L.cooldown_seconds) ∧
    ((L.should_alert now tid).1 = false → (L.should_alert now tid).2 = L) ∧
    ((EventLogger.init.should_alert 100 "t1").1 = true ∧
      ((EventLogger.init.should_alert 100 "t1").2.should_alert 105 "t1").1 = false ∧
      (((EventLogger.init.should_alert 100 "t1").2.should_alert 105 "t1").2.should_alert
        111 "t1").1 = true) := by
  refine ⟨?_, ?_, ?_, ?_, ?_, ?_⟩
  · unfold EventLogger.should_alert
    by_cases h : (L.cooldown_seconds : ℚ) ≤ now - ((alookup L.last_alert_time tid).getD 0)
    · simp [h]
    · simp [h]
  · unfold EventLogger.should_alert
    by_cases h : (L.cooldown_seconds : ℚ) ≤ now - ((alookup L.last_alert_time tid).getD 0)
    · simp [h, alookup_aset_self]
    · simp [h]
  · unfold EventLogger.should_alert
    by_cases h : (L.cooldown_seconds : ℚ) ≤ now - ((alookup L.last_alert_time tid).getD 0)
    · simp [h]
    · simp [h]
  · norm_num [EventLogger.should_alert, EventLogger.init, alookup, aset,
      ALERT_COOLDOWN_SECONDS]
  · norm_num [EventLogger.should_alert, EventLogger.init, alookup, aset,
      ALERT_COOLDOWN_SECONDS]
  · norm_num [EventLogger.should_alert, EventLogger.init, alookup, aset,
      ALERT_COOLDOWN_SECONDS]

/-- Witness for C3's amended theorem at a concrete first call. -/
theorem should_alert_amended_witness :
    (EventLogger.init.should_alert 100 "t1").1 = true ∧
    alookup (EventLogger.init.should_alert 100 "t1").2.last_alert_time "t1"
      = some 100 := by
  have h := should_alert_amended EventLogger.init 100 "t1"
  have h1 : (EventLogger.init.should_alert 100 "t1").1 = true := by
    refine h.1.mpr ?_
    norm_num [EventLogger.init, alookup, ALERT_COOLDOWN_SECONDS]
  exact ⟨h1, (h.2.1 h1).1⟩

/-! ## Claim C10 — `set_cooldown` error handling -/

/-- C10 (counterexample): the claim says `set_cooldown` never raises for any
input value.  `int(float("inf"))` raises `OverflowError`, which the
source's `except (TypeError, ValueError)` clause does not catch, so the
call propagates the exception. -/
theorem set_cooldown_raises_on_inf :
    EventLogger.init.set_cooldown (.float .inf) = .error .overflowError := rfl

/-- C10 (amended): `set_cooldown` never raises for any argument other than
an infinite float (for which `int()` raises an uncaught `OverflowError`):
an int is clamped up to a minimum of 1, a finite float is truncated toward
zero then clamped, an argument on which `int()` raises
`TypeError`/`ValueError` (e.g. `None`, `nan`, a non-numeric string) leaves
the state unchanged, and `cooldown_seconds >= 1` is preserved. -/
theorem set_cooldown_amended (L : EventLogger) (v : PyVal)
    (h1 : v ≠ .float .inf) (h2 : v ≠ .float .neg_inf) :
    ∃ L2, L.set_cooldown v = .ok L2 ∧
      (∀ n, v = .int n → L2.cooldown_seconds = max 1 n) ∧
      (∀ q, v = .float (.finite q) → L2.cooldown_seconds = max 1 (ratTrunc q)) ∧
      ((pyIntOf v = .error .typeError ∨ pyIntOf v = .error .valueError) → L2 = L) ∧
      (1 ≤ L.cooldown_seconds → 1 ≤ L2.cooldown_seconds) := by
  cases v with
  | int n =>
      refine ⟨{ L with cooldown_seconds := max 1 n }, rfl, ?_, ?_, ?_, ?_⟩
      · intro m hm
        cases hm
        rfl
      · intro q hq
        exact absurd hq (by simp)
      · intro h
        simp [pyIntOf] at h
      · intro _
        exact le_max_left 1 n
  | bool b =>
      refine ⟨{ L with cooldown_seconds := max 1 (if b then 1 else 0) },
        by cases b <;> rfl, ?_, ?_, ?_, ?_⟩
      · intro m hm
        exact absurd hm (by simp)
      · intro q hq
        exact absurd hq (by simp)
      · intro h
        cases b <;> simp [pyIntOf] at h
      · intro _
        exact le_max_left 1 _
  | float x =>
      cases x with
      | finite q =>
          refine ⟨{ L with cooldown_seconds := max 1 (ratTrunc q) }, rfl, ?_, ?_, ?_, ?_⟩
          · intro m hm
            exact absurd hm (by simp)
          · intro q' hq
            cases hq
            rfl
          · intro h
            simp [pyIntOf] at h
          · intro _
            exact le_max_left 1 _
      | inf => exact absurd rfl h1
      | neg_inf => exact absurd rfl h2
      | nan =>
          refine ⟨L, rfl, ?_, ?_, ?_, ?_⟩
          · intro m hm
            exact absurd hm (by simp)
          · intro q hq
            exact absurd hq (by simp)
          · intro _
            rfl
          · intro h
            exact h
  | str s =>
      cases hs : s.toInt? with
      | none =>
          refine ⟨L, ?_, ?_, ?_, ?_, ?_⟩
          · simp [EventLogger.set_cooldown, pyIntOf, hs]
          · intro m hm
            exact absurd hm (by simp)
          · intro q hq
            exact absurd hq (by simp)
          · intro _
            rfl
          · intro h
            exact h
      | some n =>
          refine ⟨{ L with cooldown_seconds := max 1 n }, ?_, ?_, ?_, ?_, ?_⟩
          · simp [EventLogger.set_cooldown, pyIntOf, hs]
          · intro m hm
            exact absurd hm (by simp)
          · intro q hq
            exact absurd hq (by simp)
          · intro h
            simp [pyIntOf, hs] at h
          · intro _
            exact le_max_left 1 _
  | pynone =>
      refine ⟨L, rfl, ?_, ?_, ?_, ?_⟩
      · intro m hm
        exact absurd hm (by simp)
      · intro q hq
        exact absurd hq (by simp)
      · intro _
        rfl
      · intro h
        exact h

/-- Witness for C10's amended theorem at the concrete input `int 5`. -/
theorem set_cooldown_amended_witness :
    ∃ L2, EventLogger.init.set_cooldown (.int 5) = Except.ok L2 ∧
      1 ≤ L2.cooldown_seconds := by
  obtain ⟨L2, hok, -, -, -, hge⟩ :=
    set_cooldown_amended EventLogger.init (.int 5) (by simp) (by simp)
  exact ⟨L2, hok, hge (by decide)⟩

/-! ## Claim C2 — live-path log/alert decision -/

theorem track_str_truthy (s : String) : optStrTruthy (some ("track_" ++ s)) = true := by
  simp only [optStrTruthy, Bool.not_eq_true']
  rw [Bool.eq_false_iff]
  intro h
  rw [String.isEmpty_iff] at h
  have hd := congrArg String.data h
  simp [String.data_append] at hd

theorem should_alert_preserves_log (L : EventLogger) (now : ℚ) (tid : String) :
    (L.should_alert now tid).2.events = L.events := by
  unfold EventLogger.should_alert
  by_cases h : (L.cooldown_seconds : ℚ) ≤ now - ((alookup L.last_alert_time tid).getD 0)
  · simp [h]
  · simp [h]

/-- C2: on the live path, for a tracked detection with a violation label the
event is logged (exactly one event appended) and reported with `alert=true`
iff `should_alert` fires for `track_{id}` at that instant; when the gate
does not fire nothing is logged and `alert=false`; a compliant label is
always logged with `alert=false`. -/
theorem live_alert_policy (L : EventLogger) (now : ℚ) (tid : ℕ)
    (label : String) (conf : ℚ) :
    (label ∈ VIOLATION_LABELS →
      ((L.should_alert now ("track_" ++ toString tid)).1 = true →
        (wsProcessDetection L now tid label conf).1 = true ∧
        (wsProcessDetection L now tid label conf).2.events
          = L.events ++ [⟨"live", label, conf, some ("track_" ++ toString tid)⟩]) ∧
      ((L.should_alert now ("track_" ++ toString tid)).1 = false →
        (wsProcessDetection L now tid label conf).1 = false ∧
        (wsProcessDetection L now tid label conf).2.events = L.events)) ∧
    (label ∉ VIOLATION_LABELS →
      (wsProcessDetection L now tid label conf).1 = false ∧
      (wsProcessDetection L now tid label conf).2.events
        = L.events ++ [⟨"live", label, conf, some ("track_" ++ toString tid)⟩]) := by
  constructor
  · intro hv
    constructor
    · intro hsa
      simp only [wsProcessDetection, if_pos hv, hsa, if_true]
      refine ⟨trivial, ?_⟩
      simp only [EventLogger.log_detection]
      rw [if_pos (⟨by simp, by rw [track_str_truthy], hv⟩ : _ ∧ _ ∧ _)]
      simp [db_log_event, should_alert_preserves_log]
    · intro hsa
      simp only [wsProcessDetection, if_pos hv, hsa]
      simp only [Bool.false_eq_true, if_false]
      exact ⟨trivial, should_alert_preserves_log L now ("track_" ++ toString tid)⟩
  · intro hv
    simp only [wsProcessDetection, if_neg hv]
    refine ⟨trivial, ?_⟩
    simp only [EventLogger.log_detection]
    rw [if_neg (by
      intro hcon
      exact hv hcon.2.2)]
    simp [db_log_event]

/-- Witness for C2 at a concrete violation detection on a fresh logger. -/
theorem live_alert_policy_witness :
    (wsProcessDetection EventLogger.init 100 0 "NO_MASK" (9 / 10)).1 = true ∧
    (wsProcessDetection EventLogger.init 100 0 "NO_MASK" (9 / 10)).2.events
      = [⟨"live", "NO_MASK", 9 / 10, some "track_0"⟩] := by
  have h := (live_alert_policy EventLogger.init 100 0 "NO_MASK" (9 / 10)).1
    (by decide)
  have hsa : (EventLogger.init.should_alert 100 ("track_" ++ toString (0 : ℕ))).1 = true := by
    norm_num [EventLogger.should_alert, EventLogger.init, alookup, ALERT_COOLDOWN_SECONDS]
  have h2 := h.1 hsa
  simpa [EventLogger.init] using h2

/-! ## Worker-loop lemmas -/

theorem workerLoop_no_raise (skip total : ℕ) (frames : List Bool)
    (h : ∀ b ∈ frames, b = false) : ∀ start : ℕ,
    (workerLoop skip total frames start).sampled
      = (List.range' start frames.length).filter (fun i => i % skip = 0) ∧
    (workerLoop skip total frames start).written
      = (List.range' start frames.length).filter (fun i => i % skip = 0) ∧
    (workerLoop skip total frames start).readCount = frames.length ∧
    (workerLoop skip total frames start).raised = false := by
  induction frames with
  | nil => intro start; simp [workerLoop]
  | cons b rest ih =>
      intro start
      have hb : b = false := h b (by simp)
      have hrest : ∀ x ∈ rest, x = false := fun x hx => h x (by simp [hx])
      obtain ⟨ih1, ih2, ih3, ih4⟩ := ih hrest (start + 1)
      by_cases hs : start % skip = 0
      · subst hb
        simp [workerLoop, hs, ih1, ih2, ih3, ih4, List.range'_succ]
      · subst hb
        simp [workerLoop, hs, ih1, ih2, ih3, ih4, List.range'_succ]

theorem workerLoop_trace_eq (skip total : ℕ) (frames : List Bool) : ∀ start : ℕ,
    (workerLoop skip total frames start).trace
      = (workerLoop skip total frames start).written.map (fun i => progressVal i total) := by
  induction frames with
  | nil => intro start; simp [workerLoop]
  | cons b rest ih =>
      intro start
      by_cases hs : start % skip = 0
      · cases b
        · simp [workerLoop, hs, ih (start + 1)]
        · simp [workerLoop, hs]
      · cases b <;> simp [workerLoop, hs, ih (start + 1)]

theorem workerLoop_written_bounds (skip total : ℕ) (frames : List Bool) : ∀ start : ℕ,
    ∀ i ∈ (workerLoop skip total frames start).written,
      start ≤ i ∧ i < start + frames.length := by
  induction frames with
  | nil => intro start; simp [workerLoop]
  | cons b rest ih =>
      intro start i hi
      by_cases hs : start % skip = 0
      · cases b
        · simp [workerLoop, hs] at hi
          rcases hi with rfl | hi
          · simp only [List.length_cons]
            omega
          · have := ih (start + 1) i hi
            simp only [List.length_cons]
            omega
        · simp [workerLoop, hs] at hi
      · simp [workerLoop, hs] at hi
        have := ih (start + 1) i hi
        simp only [List.length_cons]
        omega

theorem workerLoop_written_chain (skip total : ℕ) (frames : List Bool) : ∀ start : ℕ,
    List.Chain' (· < ·) (workerLoop skip total frames start).written := by
  induction frames with
  | nil => intro start; simp [workerLoop]
  | cons b rest ih =>
      intro start
      by_cases hs : start % skip = 0
      · cases b
        · rw [show (workerLoop skip total (false :: rest) start).written
              = start :: (workerLoop skip total rest (start + 1)).written from by
            simp [workerLoop, hs]]
          refine List.chain'_cons'.mpr ⟨?_, ih (start + 1)⟩
          intro y hy
          have hmem := List.mem_of_mem_head? hy
          have := workerLoop_written_bounds skip total rest (start + 1) y hmem
          omega
        · simp [workerLoop, hs]
      · rw [show (workerLoop skip total (b :: rest) start).written
            = (workerLoop skip total rest (start + 1)).written from by
          cases b <;> simp [workerLoop, hs]]
        exact ih (start + 1)

theorem progressVal_le_100 (i total : ℕ) : progressVal i total ≤ 100 :=
  min_le_left _ _

theorem progressVal_mono (total : ℕ) {i j : ℕ} (h : i ≤ j) :
    progressVal i total ≤ progressVal j total := by
  unfold progressVal
  exact min_le_min le_rfl (Nat.div_le_div_right (Nat.mul_le_mul_right _ h))

theorem progressVal_lt_100 {i total : ℕ} (htot : 0 < total) (h : i < total) :
    progressVal i total < 100 := by
  unfold progressVal
  have hx : i * 100 / total < 100 := by
    rw [Nat.div_lt_iff_lt_mul htot]
    calc i * 100 < total * 100 :=
          (Nat.mul_lt_mul_right (show (0 : ℕ) < 100 by norm_num)).mpr h
      _ = 100 * total := Nat.mul_comm _ _
  calc min 100 (i * 100 / total) ≤ i * 100 / total := min_le_right _ _
    _ < 100 := hx

/-! ## Claim C4 — frame-sampling stride -/

/-- C4 (counterexample): the claim computes the stride with `round`; the
source uses Python `int()` which truncates toward zero.  At
`input_fps = 29`, `target_fps = 5` the source's stride is 5 while the
claim's formula gives 6. -/
theorem frame_stride_not_round :
    frameSkip 29 5 = 5 ∧ frameSkipSpec 29 5 = 6 ∧
      ((frameSkip 29 5 : ℤ) ≠ frameSkipSpec 29 5) := by
  have h1 : frameSkip 29 5 = 5 := by
    norm_num [frameSkip, ratTrunc]
    decide
  have h2 : frameSkipSpec 29 5 = 6 := by
    norm_num [frameSkipSpec, round_eq]
  refine ⟨h1, h2, ?_⟩
  rw [h1, h2]
  decide

/-- C4 (amended): the stride equals `max(1, trunc(input_fps / target_fps))`
(truncation toward zero, not rounding — for positive rates this is the
floor of the ratio), and exactly the frames at indices that are multiples
of the stride are run through detect and classify; in particular for
`input_fps = 30`, `target_fps = 5` the stride is 6 and a 100-frame video
has exactly `floor(100/6) + 1` sampled frames. -/
theorem stride_and_sampling (rawFps target_fps : ℚ) (hf : 0 < rawFps)
    (ht : 0 < target_fps) (rawTotal : ℤ) (frames : List Bool)
    (hnr : ∀ b ∈ frames, b = false) :
    frameSkip rawFps target_fps = max 1 (⌊rawFps / target_fps⌋).toNat ∧
    (process_video rawFps rawTotal target_fps true frames).sampled
      = (List.range frames.length).filter
          (fun i => i % frameSkip rawFps target_fps = 0) ∧
    frameSkip 30 5 = 6 ∧
    (process_video 30 30 5 true (List.replicate 100 false)).sampled.length
      = 100 / 6 + 1 := by
  have hskip30 : frameSkip (30 : ℚ) 5 = 6 := by
    norm_num [frameSkip, ratTrunc]
    decide
  refine ⟨?_, ?_, hskip30, ?_⟩
  · have hq : (0 : ℚ) ≤ rawFps / target_fps := div_nonneg hf.le ht.le
    simp [frameSkip, ratTrunc, hq]
  · have hfle : ¬ rawFps ≤ 0 := not_le.mpr hf
    obtain ⟨hs, hw, hr, hraised⟩ := workerLoop_no_raise (frameSkip rawFps target_fps)
      (if rawTotal ≤ 0 then 1 else rawTotal.toNat) frames hnr 0
    simp only [process_video, hfle, reduceIte, hraised, Bool.false_eq_true,
      Bool.true_eq_false, if_false, hs]
    rw [List.range_eq_range']
  · obtain ⟨hs, hw, hr, hraised⟩ := workerLoop_no_raise (frameSkip (30 : ℚ) 5)
      (if (30 : ℤ) ≤ 0 then 1 else (30 : ℤ).toNat) (List.replicate 100 false)
      (fun b hb => (List.eq_of_mem_replicate hb)) 0
    simp only [process_video, reduceIte, show ¬ (30 : ℚ) ≤ 0 by norm_num,
      hraised, Bool.false_eq_true, Bool.true_eq_false, if_false, hs]
    rw [hskip30]
    decide

/-- Witness for C4's amended theorem at concrete rates 30/5. -/
theorem stride_and_sampling_witness :
    frameSkip 30 5 = max 1 (⌊(30 : ℚ) / 5⌋).toNat ∧
    (process_video 30 30 5 true [false]).sampled
      = (List.range 1).filter (fun i => i % frameSkip 30 5 = 0) := by
  have h := stride_and_sampling 30 5 (by norm_num) (by norm_num) 30 [false]
    (by simp)
  exact ⟨h.1, h.2.1⟩

/-! ## Claim C5 — pass-through of non-sampled frames -/

/-- C5 (counterexample): the claim says non-sampled frames are written to
the output unmodified, so the output contains all input frames.  In the
source `out.write(frame)` sits inside the sampled-frame branch: a 2-frame
video at 30 fps with stride 6 reads both frames but writes only frame 0. -/
theorem passthrough_fails :
    (process_video 30 2 5 true [false, false]).readCount = 2 ∧
    (process_video 30 2 5 true [false, false]).written = [0] := by
  norm_num [process_video, workerLoop, frameSkip, ratTrunc, progressVal]
  decide

/-- C5 (amended): every frame of the input is read sequentially, but only
the sampled frames are written (annotated) to the output sink; non-sampled
frames are dropped from the output. -/
theorem passthrough_amended (rawFps target_fps : ℚ) (rawTotal : ℤ)
    (frames : List Bool) (hnr : ∀ b ∈ frames, b = false) :
    (process_video rawFps rawTotal target_fps true frames).readCount
      = frames.length ∧
    (process_video rawFps rawTotal target_fps true frames).written
      = (process_video rawFps rawTotal target_fps true frames).sampled := by
  obtain ⟨hs, hw, hr, hraised⟩ := workerLoop_no_raise
    (frameSkip (if rawFps ≤ 0 then target_fps else rawFps) target_fps)
    (if rawTotal ≤ 0 then 1 else rawTotal.toNat) frames hnr 0
  constructor
  · simp only [process_video, reduceIte]
    rw [hraised]
    simp [hr]
  · simp only [process_video, reduceIte]
    rw [hraised]
    simp [hs, hw]

/-- Witness for C5's amended theorem on a concrete 2-frame video. -/
theorem passthrough_amended_witness :
    (process_video 30 2 5 true [false, false]).readCount = 2 ∧
    (process_video 30 2 5 true [false, false]).written
      = (process_video 30 2 5 true [false, false]).sampled := by
  have h := passthrough_amended 30 5 2 [false, false] (by simp)
  exact ⟨by rw [h.1]; rfl, h.2⟩

/-! ## Claim C6 — progress invariant -/

theorem mem_of_mem_getLastQ {l : List ℕ} {x : ℕ} (h : x ∈ l.getLast?) : x ∈ l := by
  obtain ⟨hne, rfl⟩ := List.mem_getLast?_eq_getLast h
  exact List.getLast_mem hne

/-- C6 (counterexample): the claim says progress equals 100 exactly when the
job's status is Completed.  With container metadata reporting 0 frames
(clamped to `total_frames = 1`) but two decodable frames, the progress
written while the job is still Processing reaches 100 at the second sampled
frame: the update trace is `[0, 100]`, so 100 is observed before the
completion transition. -/
theorem progress_100_while_processing :
    (process_video 0 0 5 true [false, false]).progressTrace = [0, 100] ∧
    100 ∈ (process_video 0 0 5 true [false, false]).progressTrace := by
  have h : (process_video 0 0 5 true [false, false]).progressTrace = [0, 100] := by
    norm_num [process_video, workerLoop, frameSkip, ratTrunc, progressVal]
  refine ⟨h, ?_⟩
  rw [h]
  simp

/-- C6 (amended): every progress value set during processing is an integer
in 0–100 and the values are monotonically non-decreasing; when the
container's reported frame count is at least the number of decodable frames
(i.e. the metadata is not an undercount), every value set while Processing
is strictly below 100 and the final progress equals 100 exactly when the
job completed. -/
theorem progress_invariant (rawFps target_fps : ℚ) (rawTotal : ℤ)
    (openOk : Bool) (frames : List Bool) :
    (∀ v ∈ (process_video rawFps rawTotal target_fps openOk frames).progressTrace,
      v ≤ 100) ∧
    List.Chain' (· ≤ ·)
      (process_video rawFps rawTotal target_fps openOk frames).progressTrace ∧
    (frames.length ≤ (if rawTotal ≤ 0 then 1 else rawTotal.toNat) →
      (∀ v ∈ (process_video rawFps rawTotal target_fps openOk frames).progressTrace,
        v < 100) ∧
      ((process_video rawFps rawTotal target_fps openOk frames).finalProgress = 100 ↔
        (process_video rawFps rawTotal target_fps openOk frames).status
          = JobStatus.completed)) := by
  cases openOk with
  | false =>
      refine ⟨?_, ?_, ?_⟩ <;> simp [process_video]
  | true =>
      have htot : 0 < (if rawTotal ≤ 0 then 1 else rawTotal.toNat) := by
        split
        · norm_num
        · omega
      set total := (if rawTotal ≤ 0 then 1 else rawTotal.toNat) with htotdef
      set skip := frameSkip (if rawFps ≤ 0 then target_fps else rawFps) target_fps
        with hskipdef
      have htr := workerLoop_trace_eq skip total frames 0
      have hbounds := workerLoop_written_bounds skip total frames 0
      have hchain := workerLoop_written_chain skip total frames 0
      have htrace_pv : ∀ v ∈ (workerLoop skip total frames 0).trace,
          ∃ i, i < frames.length ∧ v = progressVal i total := by
        intro v hv
        rw [htr] at hv
        obtain ⟨i, hi, rfl⟩ := List.mem_map.mp hv
        obtain ⟨-, hlt⟩ := hbounds i hi
        exact ⟨i, by omega, rfl⟩
      have hptrace : (process_video rawFps rawTotal target_fps true frames).progressTrace
          = (workerLoop skip total frames 0).trace := by
        by_cases hrz : (workerLoop skip total frames 0).raised = true
        · simp [process_video, hrz, htotdef, hskipdef]
        · simp only [Bool.not_eq_true] at hrz
          simp [process_video, hrz, htotdef, hskipdef]
      refine ⟨?_, ?_, ?_⟩
      · intro v hv
        rw [hptrace] at hv
        obtain ⟨i, -, rfl⟩ := htrace_pv v hv
        exact progressVal_le_100 i total
      · rw [hptrace, htr]
        rw [List.chain'_map]
        exact hchain.imp (fun a b hab => progressVal_mono total hab.le)
      · intro hconsistent
        have hlt100 : ∀ v ∈ (workerLoop skip total frames 0).trace, v < 100 := by
          intro v hv
          obtain ⟨i, hi, rfl⟩ := htrace_pv v hv
          exact progressVal_lt_100 htot (by omega)
        refine ⟨?_, ?_⟩
        · intro v hv
          rw [hptrace] at hv
          exact hlt100 v hv
        · by_cases hrz : (workerLoop skip total frames 0).raised = true
          · have hfin : (process_video rawFps rawTotal target_fps true frames).finalProgress
                = ((workerLoop skip total frames 0).trace.getLast?).getD 0 := by
              simp [process_video, hrz, htotdef, hskipdef]
            have hst : (process_video rawFps rawTotal target_fps true frames).status
                = JobStatus.failed := by
              simp [process_video, hrz, htotdef, hskipdef]
            rw [hfin, hst]
            constructor
            · intro h100
              exfalso
              cases hgl : ((workerLoop skip total frames 0).trace.getLast?) with
              | none => rw [hgl] at h100; simp at h100
              | some v =>
                  rw [hgl] at h100
                  simp only [Option.getD_some] at h100
                  have hv := hlt100 v (mem_of_mem_getLastQ (by rw [hgl]; rfl))
                  omega
            · intro hcon
              cases hcon
          · simp only [Bool.not_eq_true] at hrz
            have hfin : (process_video rawFps rawTotal target_fps true frames).finalProgress
                = 100 := by
              simp [process_video, hrz, htotdef, hskipdef]
            have hst : (process_video rawFps rawTotal target_fps true frames).status
                = JobStatus.completed := by
              simp [process_video, hrz, htotdef, hskipdef]
            rw [hfin, hst]
            simp

/-- Witness for C6's amended theorem on a consistent 2-frame video. -/
theorem progress_invariant_witness :
    (process_video 30 2 5 true [false, false]).finalProgress = 100 ↔
      (process_video 30 2 5 true [false, false]).status = JobStatus.completed := by
  have h := (progress_invariant 30 5 2 true [false, false]).2.2 (by decide)
  exact h.2

/-! ## Claim C7 — resource release on exit paths -/

/-- C7 (code bug): `cap.release()`/`out.release()` are only reached on the
normal path (video_worker.py:257–258); when processing a sampled frame
raises, control jumps to the `except` handler (video_worker.py:271–274),
which marks the job Failed and returns without releasing either handle.
On the normal path both handles are released. -/
theorem resource_release_skipped_on_exception :
    (process_video 30 1 5 true [true]).status = JobStatus.failed ∧
    (process_video 30 1 5 true [true]).capReleased = false ∧
    (process_video 30 1 5 true [true]).outReleased = false ∧
    (process_video 30 1 5 true [false]).capReleased = true ∧
    (process_video 30 1 5 true [false]).outReleased = true := by
  norm_num [process_video, workerLoop, frameSkip, ratTrunc, progressVal]

/-! ## Claim C8 — three-frame live trace -/

/-- Frame-1 box of the three-frame scenario, centroid `(10, 10)`. -/
def liveFrame1Box : Box := ⟨8, 8, 12, 12⟩

/-- Frame-2 box of the three-frame scenario, centroid `(12, 11)`. -/
def liveFrame2Box : Box := ⟨10, 10, 14, 12⟩

/-- Frame-3 box of the three-frame scenario, centroid `(50, 50)`. -/
def liveFrame3Box : Box := ⟨48, 48, 52, 52⟩

/-- Tracker state and results after frame 1 of the scenario. -/
def liveTrace1 : CentroidTracker × List (ℕ × Box) :=
  (CentroidTracker.mk0 30).update [liveFrame1Box]

/-- Tracker state and results after frame 2 of the scenario. -/
def liveTrace2 : CentroidTracker × List (ℕ × Box) :=
  liveTrace1.1.update [liveFrame2Box]

/-- Tracker state and results after frame 3 of the scenario. -/
def liveTrace3 : CentroidTracker × List (ℕ × Box) :=
  liveTrace2.1.update [liveFrame3Box]

/-- C8 (counterexample): the claim expects frame 3 to yield track ids
`{0, 1}` with the far box becoming new track 1.  The tracker has no
distance threshold: frame 3's single box at `(50, 50)` is matched to the
only existing track (id 0, last seen at `(12, 11)`), so frame 3 yields
`{0}` and id 1 is never issued. -/
theorem live_frame3_not_two_tracks :
    liveTrace3.2.map (fun p => p.1) = [0] ∧
    1 ∉ liveTrace3.2.map (fun p => p.1) := by
  have h : liveTrace3.2.map (fun p => p.1) = [0] := by
    norm_num [liveTrace3, liveTrace2, liveTrace1, liveFrame1Box, liveFrame2Box,
      liveFrame3Box, CentroidTracker.update, CentroidTracker.mk0, registerAll,
      centroidOf, CentroidTracker.register, CentroidTracker.deregister, dist2,
      listMin, argminIdx, argsortLe, selectedPairs, applyMatches,
      processUnusedRows, alookup, aset, markAllDisappeared, distMatrixOf,
      rowsOf, colsOf, selOf, updateMatched, updateUnusedRows, updateT2,
      updateNewItems, updateReg, List.insertionSort, List.orderedInsert,
      List.range_succ, List.indexOf, List.findIdx, List.findIdx.go]
  refine ⟨h, ?_⟩
  rw [h]
  decide

/-- C8 (amended): the live session over the three frames with centroids
`(10,10)`, `(12,11)`, `(50,50)` yields track ids `{0}`, `{0}`, `{0}`: the
far box of frame 3 is re-matched to track 0 (nearest-neighbour matching has
no distance gate), not registered as a new track. -/
theorem live_three_frame_trace :
    liveTrace1.2.map (fun p => p.1) = [0] ∧
    liveTrace2.2.map (fun p => p.1) = [0] ∧
    liveTrace3.2.map (fun p => p.1) = [0] := by
  refine ⟨?_, ?_, ?_⟩ <;>
    norm_num [liveTrace3, liveTrace2, liveTrace1, liveFrame1Box, liveFrame2Box,
      liveFrame3Box, CentroidTracker.update, CentroidTracker.mk0, registerAll,
      centroidOf, CentroidTracker.register, CentroidTracker.deregister, dist2,
      listMin, argminIdx, argsortLe, selectedPairs, applyMatches,
      processUnusedRows, alookup, aset, markAllDisappeared, distMatrixOf,
      rowsOf, colsOf, selOf, updateMatched, updateUnusedRows, updateT2,
      updateNewItems, updateReg, List.insertionSort, List.orderedInsert,
      List.range_succ, List.indexOf, List.findIdx, List.findIdx.go]

/-! ## Row-minimum and argmin lemmas -/

theorem foldl_min_le_init (t : List ℚ) : ∀ a : ℚ, t.foldl min a ≤ a := by
  induction t with
  | nil => intro a; simp
  | cons x t ih =>
      intro a
      calc (x :: t).foldl min a = t.foldl min (min a x) := by simp
        _ ≤ min a x := ih (min a x)
        _ ≤ a := min_le_left a x

theorem foldl_min_le_mem (t : List ℚ) : ∀ a : ℚ, ∀ x ∈ t, t.foldl min a ≤ x := by
  induction t with
  | nil => intro a x hx; simp at hx
  | cons y t ih =>
      intro a x hx
      rcases List.mem_cons.mp hx with rfl | hx
      · calc (x :: t).foldl min a = t.foldl min (min a x) := by simp
          _ ≤ min a x := foldl_min_le_init t (min a x)
          _ ≤ x := min_le_right a x
      · simpa using ih (min a y) x hx

theorem foldl_min_mem (t : List ℚ) : ∀ a : ℚ, t.foldl min a = a ∨ t.foldl min a ∈ t := by
  induction t with
  | nil => intro a; left; rfl
  | cons x t ih =>
      intro a
      have hstep : (x :: t).foldl min a = t.foldl min (min a x) := by simp
      rcases ih (min a x) with h | h
      · rcases min_choice a x with hax | hax
        · left; rw [hstep, h, hax]
        · right; rw [hstep, h, hax]; exact List.mem_cons_self x t
      · right
        rw [hstep]
        exact List.mem_cons_of_mem x h

theorem listMin_le {l : List ℚ} : ∀ x ∈ l, listMin l ≤ x := by
  cases l with
  | nil => intro x hx; simp at hx
  | cons y t =>
      intro x hx
      rcases List.mem_cons.mp hx with rfl | hx
      · exact foldl_min_le_init t x
      · exact foldl_min_le_mem t y x hx

theorem listMin_mem {l : List ℚ} (h : l ≠ []) : listMin l ∈ l := by
  cases l with
  | nil => exact absurd rfl h
  | cons y t =>
      rcases foldl_min_mem t y with h1 | h1
      · rw [listMin, h1]; exact List.mem_cons_self y t
      · rw [listMin]; exact List.mem_cons_of_mem y h1

theorem getD_ne_of_lt_indexOf {l : List ℚ} {a : ℚ} :
    ∀ j, j < l.indexOf a → l.getD j 0 ≠ a := by
  induction l with
  | nil => intro j hj; simp [List.indexOf] at hj
  | cons x t ih =>
      intro j hj
      by_cases hx : x = a
      · rw [hx, List.indexOf_cons_self] at hj
        omega
      · rw [List.indexOf_cons_ne t hx] at hj
        cases j with
        | zero => simpa using hx
        | succ j =>
            have := ih j (by omega)
            simpa using this

theorem argminIdx_lt_length {l : List ℚ} (h : l ≠ []) : argminIdx l < l.length :=
  List.indexOf_lt_length.mpr (listMin_mem h)

theorem argminIdx_getD {l : List ℚ} (h : l ≠ []) :
    l.getD (argminIdx l) 0 = listMin l := by
  have hlt := argminIdx_lt_length h
  rw [List.getD_eq_getElem _ _ hlt]
  exact List.getElem_indexOf hlt

theorem argminIdx_min {l : List ℚ} (h : l ≠ []) :
    ∀ j, j < l.length → l.getD (argminIdx l) 0 ≤ l.getD j 0 := by
  intro j hj
  rw [argminIdx_getD h]
  exact listMin_le _ (by rw [List.getD_eq_getElem _ _ hj]; exact List.getElem_mem hj)

theorem argminIdx_first {l : List ℚ} (h : l ≠ []) :
    ∀ j, j < argminIdx l → l.getD (argminIdx l) 0 < l.getD j 0 := by
  intro j hj
  have hjl : j < l.length := lt_trans hj (argminIdx_lt_length h)
  have hne : l.getD j 0 ≠ listMin l := getD_ne_of_lt_indexOf j hj
  have hle := argminIdx_min h j hjl
  rw [argminIdx_getD h] at hle ⊢
  exact lt_of_le_of_ne hle (fun hc => hne hc.symm)

/-! ## Argsort lemmas -/

theorem argsortLe_perm (keys : List ℚ) :
    (argsortLe keys).Perm (List.range keys.length) :=
  List.perm_insertionSort _ _

theorem argsortLe_sorted (keys : List ℚ) :
    List.Sorted (fun i j => keys.getD i 0 ≤ keys.getD j 0) (argsortLe keys) := by
  haveI : IsTotal ℕ (fun i j => keys.getD i 0 ≤ keys.getD j 0) :=
    ⟨fun a b => le_total _ _⟩
  haveI : IsTrans ℕ (fun i j => keys.getD i 0 ≤ keys.getD j 0) :=
    ⟨fun a b c hab hbc => le_trans hab hbc⟩
  exact List.sorted_insertionSort _ _

/-! ## Greedy pair-selection lemmas -/

theorem selectedPairs_sublist (pairs : List (ℕ × ℕ)) : ∀ ur uc,
    (selectedPairs pairs ur uc).Sublist pairs := by
  induction pairs with
  | nil => intro ur uc; simp [selectedPairs]
  | cons p rest ih =>
      intro ur uc
      by_cases h : ur.contains p.1 || uc.contains p.2
      · rw [selectedPairs, if_pos h]
        exact (ih ur uc).cons p
      · rw [selectedPairs, if_neg h]
        exact (ih (p.1 :: ur) (p.2 :: uc)).cons₂ p

theorem selectedPairs_fst_not_used (pairs : List (ℕ × ℕ)) : ∀ ur uc,
    ∀ p ∈ selectedPairs pairs ur uc, p.1 ∉ ur := by
  induction pairs with
  | nil => intro ur uc p hp; simp [selectedPairs] at hp
  | cons q rest ih =>
      intro ur uc p hp
      by_cases h : ur.contains q.1 || uc.contains q.2
      · rw [selectedPairs, if_pos h] at hp
        exact ih ur uc p hp
      · rw [selectedPairs, if_neg h] at hp
        rcases List.mem_cons.mp hp with rfl | hp
        · intro hc
          apply h
          simp [hc]
        · have := ih (q.1 :: ur) (q.2 :: uc) p hp
          intro hc
          exact this (List.mem_cons_of_mem _ hc)

theorem selectedPairs_snd_not_used (pairs : List (ℕ × ℕ)) : ∀ ur uc,
    ∀ p ∈ selectedPairs pairs ur uc, p.2 ∉ uc := by
  induction pairs with
  | nil => intro ur uc p hp; simp [selectedPairs] at hp
  | cons q rest ih =>
      intro ur uc p hp
      by_cases h : ur.contains q.1 || uc.contains q.2
      · rw [selectedPairs, if_pos h] at hp
        exact ih ur uc p hp
      · rw [selectedPairs, if_neg h] at hp
        rcases List.mem_cons.mp hp with rfl | hp
        · intro hc
          apply h
          simp [hc]
        · have := ih (q.1 :: ur) (q.2 :: uc) p hp
          intro hc
          exact this (List.mem_cons_of_mem _ hc)

theorem selectedPairs_fst_nodup (pairs : List (ℕ × ℕ)) : ∀ ur uc,
    ((selectedPairs pairs ur uc).map (fun p => p.1)).Nodup := by
  induction pairs with
  | nil => intro ur uc; simp [selectedPairs]
  | cons q rest ih =>
      intro ur uc
      by_cases h : ur.contains q.1 || uc.contains q.2
      · rw [selectedPairs, if_pos h]
        exact ih ur uc
      · rw [selectedPairs, if_neg h]
        rw [List.map_cons, List.nodup_cons]
        refine ⟨?_, ih (q.1 :: ur) (q.2 :: uc)⟩
        intro hc
        obtain ⟨p, hp, hpq⟩ := List.mem_map.mp hc
        have := selectedPairs_fst_not_used rest (q.1 :: ur) (q.2 :: uc) p hp
        exact this (by rw [hpq]; exact List.mem_cons_self _ _)

theorem selectedPairs_snd_nodup (pairs : List (ℕ × ℕ)) : ∀ ur uc,
    ((selectedPairs pairs ur uc).map (fun p => p.2)).Nodup := by
  induction pairs with
  | nil => intro ur uc; simp [selectedPairs]
  | cons q rest ih =>
      intro ur uc
      by_cases h : ur.contains q.1 || uc.contains q.2
      · rw [selectedPairs, if_pos h]
        exact ih ur uc
      · rw [selectedPairs, if_neg h]
        rw [List.map_cons, List.nodup_cons]
        refine ⟨?_, ih (q.1 :: ur) (q.2 :: uc)⟩
        intro hc
        obtain ⟨p, hp, hpq⟩ := List.mem_map.mp hc
        have := selectedPairs_snd_not_used rest (q.1 :: ur) (q.2 :: uc) p hp
        exact this (by rw [hpq]; exact List.mem_cons_self _ _)

theorem selectedPairs_skipped_fst (pairs : List (ℕ × ℕ)) : ∀ ur uc,
    (pairs.map (fun p => p.1)).Nodup →
    ∀ p ∈ pairs, p ∉ selectedPairs pairs ur uc →
      p.1 ∉ (selectedPairs pairs ur uc).map (fun q => q.1) := by
  induction pairs with
  | nil => intro ur uc hnd p hp hns; simp at hp
  | cons q rest ih =>
      intro ur uc hnd p hp hns
      have hndq : q.1 ∉ rest.map (fun x => x.1) := by
        rw [List.map_cons, List.nodup_cons] at hnd
        exact hnd.1
      have hndt : (rest.map (fun x => x.1)).Nodup := by
        rw [List.map_cons, List.nodup_cons] at hnd
        exact hnd.2
      by_cases h : ur.contains q.1 || uc.contains q.2
      · rw [selectedPairs, if_pos h] at hns ⊢
        rcases List.mem_cons.mp hp with rfl | hp
        · intro hc
          obtain ⟨x, hx, hxy⟩ := List.mem_map.mp hc
          have hxrest := (selectedPairs_sublist rest ur uc).mem hx
          exact hndq (by
            rw [← hxy]
            exact List.mem_map.mpr ⟨x, hxrest, rfl⟩)
        · exact ih ur uc hndt p hp hns
      · rw [selectedPairs, if_neg h] at hns ⊢
        rcases List.mem_cons.mp hp with rfl | hp
        · exact absurd (List.mem_cons_self _ _) hns
        · have hp1 : p.1 ∈ rest.map (fun x => x.1) := List.mem_map.mpr ⟨p, hp, rfl⟩
          have hne : p.1 ≠ q.1 := fun hc => hndq (hc ▸ hp1)
          rw [List.map_cons]
          intro hc
          rcases List.mem_cons.mp hc with hc | hc
          · exact hne hc
          · have hns' : p ∉ selectedPairs rest (q.1 :: ur) (q.2 :: uc) :=
              fun hx => hns (List.mem_cons_of_mem _ hx)
            exact ih (q.1 :: ur) (q.2 :: uc) hndt p hp hns' hc

/-! ## Structural lemmas for the update phases -/

theorem map_fst_filter_key {β : Type} (l : List (ℕ × β)) (q : ℕ → Bool) :
    (l.filter (fun p => q p.1)).map (fun p => p.1)
      = (l.map (fun p => p.1)).filter q := by
  induction l with
  | nil => rfl
  | cons p rest ih =>
      by_cases hq : q p.1
      · simp [List.filter_cons, hq, ih]
      · simp [List.filter_cons, hq, ih]

theorem applyMatches_results (ids : List ℕ) (ics : List Centroid)
    (boxes : List Box) : ∀ (sel : List (ℕ × ℕ)) (t : CentroidTracker),
    (applyMatches ids ics boxes sel t).2
      = sel.map (fun rc => (ids.getD rc.1 0, boxes.getD rc.2 default)) := by
  intro sel
  induction sel with
  | nil => intro t; rfl
  | cons rc rest ih => intro t; simp [applyMatches, ih]

theorem applyMatches_next_max (ids : List ℕ) (ics : List Centroid)
    (boxes : List Box) : ∀ (sel : List (ℕ × ℕ)) (t : CentroidTracker),
    (applyMatches ids ics boxes sel t).1.next_object_id = t.next_object_id ∧
    (applyMatches ids ics boxes sel t).1.max_disappeared = t.max_disappeared := by
  intro sel
  induction sel with
  | nil => intro t; exact ⟨rfl, rfl⟩
  | cons rc rest ih =>
      intro t
      simpa [applyMatches] using ih _

theorem applyMatches_keys (ids : List ℕ) (ics : List Centroid)
    (boxes : List Box) : ∀ (sel : List (ℕ × ℕ)) (t : CentroidTracker),
    (∀ rc ∈ sel, ids.getD rc.1 0 ∈ t.objects.map (fun p => p.1)) →
    (∀ rc ∈ sel, ids.getD rc.1 0 ∈ t.disappeared.map (fun p => p.1)) →
    (applyMatches ids ics boxes sel t).1.objects.map (fun p => p.1)
        = t.objects.map (fun p => p.1) ∧
    (applyMatches ids ics boxes sel t).1.disappeared.map (fun p => p.1)
        = t.disappeared.map (fun p => p.1) := by
  intro sel
  induction sel with
  | nil => intro t _ _; exact ⟨rfl, rfl⟩
  | cons rc rest ih =>
      intro t hobj hdis
      have hobj0 := hobj rc (List.mem_cons_self _ _)
      have hdis0 := hdis rc (List.mem_cons_self _ _)
      have hkeep1 := aset_map_fst_of_mem t.objects (ids.getD rc.1 0)
        (ics.getD rc.2 (0, 0)) hobj0
      have hkeep2 := aset_map_fst_of_mem t.disappeared (ids.getD rc.1 0) 0 hdis0
      have := ih
        { t with
          objects := aset t.objects (ids.getD rc.1 0) (ics.getD rc.2 (0, 0))
          disappeared := aset t.disappeared (ids.getD rc.1 0) 0 }
        (fun x hx => by rw [hkeep1]; exact hobj x (List.mem_cons_of_mem _ hx))
        (fun x hx => by rw [hkeep2]; exact hdis x (List.mem_cons_of_mem _ hx))
      rw [applyMatches]
      refine ⟨?_, ?_⟩
      · rw [this.1]
        exact hkeep1
      · rw [this.2]
        exact hkeep2

theorem registerAll_spec : ∀ (items : List (Centroid × Box)) (t : CentroidTracker),
    (registerAll t items).1.next_object_id = t.next_object_id + items.length ∧
    (registerAll t items).1.max_disappeared = t.max_disappeared ∧
    (registerAll t items).2.map (fun p => p.1)
      = List.range' t.next_object_id items.length ∧
    (registerAll t items).1.objects.map (fun p => p.1)
      = t.objects.map (fun p => p.1) ++ List.range' t.next_object_id items.length ∧
    (registerAll t items).1.disappeared.map (fun p => p.1)
      = t.disappeared.map (fun p => p.1) ++ List.range' t.next_object_id items.length := by
  intro items
  induction items with
  | nil => intro t; simp [registerAll]
  | cons it rest ih =>
      intro t
      obtain ⟨ih1, ih2, ih3, ih4, ih5⟩ := ih
        { t with
          objects := t.objects ++ [(t.next_object_id, it.1)]
          disappeared := t.disappeared ++ [(t.next_object_id, 0)]
          next_object_id := t.next_object_id + 1 }
      refine ⟨?_, ?_, ?_, ?_, ?_⟩
      · rw [registerAll]
        simp only [CentroidTracker.register] at ih1 ⊢
        rw [ih1]
        simp only [List.length_cons]
        omega
      · rw [registerAll]
        simpa [CentroidTracker.register] using ih2
      · rw [registerAll]
        simp only [CentroidTracker.register] at ih3 ⊢
        simp only [List.map_cons, ih3, List.length_cons, List.range'_succ]
      · rw [registerAll]
        simp only [CentroidTracker.register] at ih4 ⊢
        rw [ih4]
        simp [List.length_cons, List.range'_succ]
      · rw [registerAll]
        simp only [CentroidTracker.register] at ih5 ⊢
        rw [ih5]
        simp [List.length_cons, List.range'_succ]

/-! ## Well-formedness of tracker state -/

/-- Bookkeeping consistency: the `objects` and `disappeared` dicts hold the
same ids, without duplicates. -/
def KeysOk (t : CentroidTracker) : Prop :=
  (∀ id ∈ t.objects.map (fun p => p.1), id ∈ t.disappeared.map (fun p => p.1)) ∧
  (∀ id ∈ t.disappeared.map (fun p => p.1), id ∈ t.objects.map (fun p => p.1)) ∧
  (t.objects.map (fun p => p.1)).Nodup ∧
  (t.disappeared.map (fun p => p.1)).Nodup

/-- Tracker well-formedness: consistent bookkeeping and every live id below
`next_object_id`. -/
def TrackerWF (t : CentroidTracker) : Prop :=
  KeysOk t ∧ ∀ id ∈ t.objects.map (fun p => p.1), id < t.next_object_id

theorem processUnusedRows_spec (ids : List ℕ) : ∀ (rows : List ℕ)
    (t : CentroidTracker), KeysOk t →
    (∀ r ∈ rows, ids.getD r 0 ∈ t.objects.map (fun p => p.1)) →
    (rows.map (fun r => ids.getD r 0)).Nodup →
    KeysOk (processUnusedRows ids rows t) ∧
    (processUnusedRows ids rows t).next_object_id = t.next_object_id ∧
    (processUnusedRows ids rows t).max_disappeared = t.max_disappeared ∧
    (∀ id ∈ (processUnusedRows ids rows t).objects.map (fun p => p.1),
      id ∈ t.objects.map (fun p => p.1)) := by
  intro rows
  induction rows with
  | nil => intro t hk _ _; exact ⟨hk, rfl, rfl, fun id h => h⟩
  | cons r rest ih =>
      intro t hk hmem hnd
      have hr0 : ids.getD r 0 ∈ t.objects.map (fun p => p.1) :=
        hmem r (List.mem_cons_self _ _)
      have hndhd : ids.getD r 0 ∉ rest.map (fun x => ids.getD x 0) := by
        rw [List.map_cons, List.nodup_cons] at hnd
        exact hnd.1
      have hndt : (rest.map (fun x => ids.getD x 0)).Nodup := by
        rw [List.map_cons, List.nodup_cons] at hnd
        exact hnd.2
      rw [processUnusedRows]
      by_cases hd : t.max_disappeared < (alookup t.disappeared (ids.getD r 0)).getD 0 + 1
      · rw [if_pos hd]
        set oid := ids.getD r 0 with hoid
        have hkobj : (t.deregister oid).objects.map (fun p => p.1)
            = (t.objects.map (fun p => p.1)).filter (fun id => id != oid) := by
          simp only [CentroidTracker.deregister]
          exact map_fst_filter_key t.objects (fun id => id != oid)
        have hkdis : (t.deregister oid).disappeared.map (fun p => p.1)
            = (t.disappeared.map (fun p => p.1)).filter (fun id => id != oid) := by
          simp only [CentroidTracker.deregister]
          exact map_fst_filter_key t.disappeared (fun id => id != oid)
        have hk1 : KeysOk (t.deregister oid) := by
          obtain ⟨h1, h2, h3, h4⟩ := hk
          refine ⟨?_, ?_, ?_, ?_⟩
          · intro id hid
            rw [hkobj] at hid
            rw [hkdis]
            rw [List.mem_filter] at hid ⊢
            exact ⟨h1 id hid.1, hid.2⟩
          · intro id hid
            rw [hkdis] at hid
            rw [hkobj]
            rw [List.mem_filter] at hid ⊢
            exact ⟨h2 id hid.1, hid.2⟩
          · rw [hkobj]; exact h3.filter _
          · rw [hkdis]; exact h4.filter _
        have hmem1 : ∀ x ∈ rest, ids.getD x 0 ∈
            (t.deregister oid).objects.map (fun p => p.1) := by
          intro x hx
          rw [hkobj, List.mem_filter]
          refine ⟨hmem x (List.mem_cons_of_mem _ hx), ?_⟩
          have : ids.getD x 0 ≠ oid := by
            intro hc
            exact hndhd (hc ▸ List.mem_map.mpr ⟨x, hx, rfl⟩)
          simpa using this
        obtain ⟨c1, c2, c3, c4⟩ := ih (t.deregister oid) hk1 hmem1 hndt
        refine ⟨c1, c2, c3, ?_⟩
        intro id hid
        have := c4 id hid
        rw [hkobj, List.mem_filter] at this
        exact this.1
      · rw [if_neg hd]
        set oid := ids.getD r 0 with hoid
        set d1 := (alookup t.disappeared oid).getD 0 + 1 with hd1
        set t1 : CentroidTracker := { t with disappeared := aset t.disappeared oid d1 }
          with ht1
        have hdis0 : oid ∈ t.disappeared.map (fun p => p.1) := hk.1 oid hr0
        have hkeep : t1.disappeared.map (fun p => p.1)
            = t.disappeared.map (fun p => p.1) := by
          rw [ht1]
          exact aset_map_fst_of_mem t.disappeared oid d1 hdis0
        have hobjeq : t1.objects = t.objects := rfl
        have hk1 : KeysOk t1 := by
          obtain ⟨h1, h2, h3, h4⟩ := hk
          refine ⟨?_, ?_, ?_, ?_⟩
          · intro id hid
            rw [hkeep]
            rw [hobjeq] at hid
            exact h1 id hid
          · intro id hid
            rw [hobjeq]
            rw [hkeep] at hid
            exact h2 id hid
          · rw [hobjeq]; exact h3
          · rw [hkeep]; exact h4
        have hmem1 : ∀ x ∈ rest, ids.getD x 0 ∈ t1.objects.map (fun p => p.1) := by
          intro x hx
          rw [hobjeq]
          exact hmem x (List.mem_cons_of_mem _ hx)
        obtain ⟨c1, c2, c3, c4⟩ := ih t1 hk1 hmem1 hndt
        refine ⟨c1, c2, c3, ?_⟩
        intro id hid
        have := c4 id hid
        rwa [hobjeq] at this

/-! ## Empty-update (`markAllDisappeared`) lemmas -/

theorem filterMap_keep_eq (l : List (ℕ × ℕ)) (m : ℕ) :
    l.filterMap (fun p => if m < p.2 + 1 then none else some (p.1, p.2 + 1))
      = (l.filter (fun p => !(decide (m < p.2 + 1)))).map (fun p => (p.1, p.2 + 1)) := by
  induction l with
  | nil => rfl
  | cons p rest ih =>
      by_cases hp : m < p.2 + 1
      · simp [List.filterMap_cons, List.filter_cons, hp, ih]
      · simp [List.filterMap_cons, List.filter_cons, hp, ih]

theorem filterMap_removed_eq (l : List (ℕ × ℕ)) (m : ℕ) :
    l.filterMap (fun p => if m < p.2 + 1 then some p.1 else none)
      = (l.filter (fun p => decide (m < p.2 + 1))).map (fun p => p.1) := by
  induction l with
  | nil => rfl
  | cons p rest ih =>
      by_cases hp : m < p.2 + 1
      · simp [List.filterMap_cons, List.filter_cons, hp, ih]
      · simp [List.filterMap_cons, List.filter_cons, hp, ih]

theorem count_unique {β : Type} (l : List (ℕ × β))
    (hnd : (l.map (fun p => p.1)).Nodup) :
    ∀ {id : ℕ} {c1 c2 : β}, (id, c1) ∈ l → (id, c2) ∈ l → c1 = c2 := by
  induction l with
  | nil => intro id c1 c2 h1; simp at h1
  | cons p rest ih =>
      intro id c1 c2 h1 h2
      rw [List.map_cons, List.nodup_cons] at hnd
      rcases List.mem_cons.mp h1 with he1 | h1 <;>
        rcases List.mem_cons.mp h2 with he2 | h2
      · have h12 : (id, c1) = (id, c2) := he1.trans he2.symm
        injection h12 with h1a h1b
      · exfalso
        apply hnd.1
        rw [← he1]
        exact List.mem_map.mpr ⟨(id, c2), h2, rfl⟩
      · exfalso
        apply hnd.1
        rw [← he2]
        exact List.mem_map.mpr ⟨(id, c1), h1, rfl⟩
      · exact ih hnd.2 h1 h2

theorem markAll_next_max (t : CentroidTracker) :
    (markAllDisappeared t).next_object_id = t.next_object_id ∧
    (markAllDisappeared t).max_disappeared = t.max_disappeared :=
  ⟨rfl, rfl⟩

theorem markAll_dis_keys (t : CentroidTracker) :
    (markAllDisappeared t).disappeared.map (fun p => p.1)
      = ((t.disappeared.filter
          (fun p => !(decide (t.max_disappeared < p.2 + 1)))).map (fun p => p.1)) := by
  simp only [markAllDisappeared, filterMap_keep_eq, List.map_map]
  rfl

theorem markAll_obj_keys (t : CentroidTracker) :
    (markAllDisappeared t).objects.map (fun p => p.1)
      = (t.objects.map (fun p => p.1)).filter
          (fun id => !((t.disappeared.filterMap
            (fun p => if t.max_disappeared < p.2 + 1 then some p.1 else none)).contains id)) := by
  simp only [markAllDisappeared]
  exact map_fst_filter_key t.objects
    (fun id => !((t.disappeared.filterMap
      (fun p => if t.max_disappeared < p.2 + 1 then some p.1 else none)).contains id))

theorem markAll_counts (t : CentroidTracker) :
    ∀ p ∈ (markAllDisappeared t).disappeared,
      p.2 ≤ t.max_disappeared ∧ ∃ c0, (p.1, c0) ∈ t.disappeared ∧ p.2 = c0 + 1 := by
  intro p hp
  simp only [markAllDisappeared, filterMap_keep_eq] at hp
  obtain ⟨q, hq, rfl⟩ := List.mem_map.mp hp
  rw [List.mem_filter] at hq
  have hcond : ¬ t.max_disappeared < q.2 + 1 := by
    have := hq.2
    simpa using this
  exact ⟨by omega, q.2, by simpa using hq.1, rfl⟩

theorem markAll_keysOk (t : CentroidTracker) (hk : KeysOk t) :
    KeysOk (markAllDisappeared t) ∧
    (∀ id ∈ (markAllDisappeared t).objects.map (fun p => p.1),
      id ∈ t.objects.map (fun p => p.1)) := by
  obtain ⟨h1, h2, h3, h4⟩ := hk
  have hremoved : ∀ id, (t.disappeared.filterMap
      (fun p => if t.max_disappeared < p.2 + 1 then some p.1 else none)).contains id = true
      ↔ ∃ c, (id, c) ∈ t.disappeared ∧ t.max_disappeared < c + 1 := by
    intro id
    rw [filterMap_removed_eq]
    simp only [List.elem_iff, List.mem_map, List.mem_filter]
    constructor
    · rintro ⟨q, ⟨hqmem, hqc⟩, rfl⟩
      exact ⟨q.2, hqmem, by simpa using hqc⟩
    · rintro ⟨c, hmem, hc⟩
      exact ⟨(id, c), ⟨hmem, by simpa using hc⟩, rfl⟩
  have hdmem : ∀ id, id ∈ (markAllDisappeared t).disappeared.map (fun p => p.1)
      ↔ ∃ c, (id, c) ∈ t.disappeared ∧ ¬ t.max_disappeared < c + 1 := by
    intro id
    rw [markAll_dis_keys]
    simp only [List.mem_map, List.mem_filter]
    constructor
    · rintro ⟨q, ⟨hqmem, hqc⟩, rfl⟩
      exact ⟨q.2, hqmem, by simpa using hqc⟩
    · rintro ⟨c, hmem, hc⟩
      exact ⟨(id, c), ⟨hmem, by simpa using hc⟩, rfl⟩
  have homem : ∀ id, id ∈ (markAllDisappeared t).objects.map (fun p => p.1)
      ↔ id ∈ t.objects.map (fun p => p.1) ∧
        ¬ ∃ c, (id, c) ∈ t.disappeared ∧ t.max_disappeared < c + 1 := by
    intro id
    rw [markAll_obj_keys]
    rw [List.mem_filter]
    constructor
    · rintro ⟨hmem, hcond⟩
      refine ⟨hmem, ?_⟩
      intro hc
      rw [← hremoved id] at hc
      rw [hc] at hcond
      simp at hcond
    · rintro ⟨hmem, hcond⟩
      refine ⟨hmem, ?_⟩
      rw [Bool.not_eq_eq_eq_not]
      simp only [Bool.not_true]
      rw [← Bool.not_eq_true, hremoved id]
      exact hcond
  constructor
  · refine ⟨?_, ?_, ?_, ?_⟩
    · intro id hid
      rw [homem] at hid
      obtain ⟨hmem, hnc⟩ := hid
      have hd := h1 id hmem
      obtain ⟨q, hq, hqfst⟩ := List.mem_map.mp hd
      rw [hdmem]
      refine ⟨q.2, by rw [← hqfst]; exact (by simpa using hq), ?_⟩
      intro hlt
      exact hnc ⟨q.2, by rw [← hqfst]; exact (by simpa using hq), hlt⟩
    · intro id hid
      rw [hdmem] at hid
      obtain ⟨c, hmem, hc⟩ := hid
      rw [homem]
      have hobj : id ∈ t.objects.map (fun p => p.1) :=
        h2 id (List.mem_map.mpr ⟨(id, c), hmem, rfl⟩)
      refine ⟨hobj, ?_⟩
      rintro ⟨c2, hmem2, hc2⟩
      have : c = c2 := count_unique t.disappeared h4 hmem hmem2
      omega
    · rw [markAll_obj_keys]
      exact h3.filter _
    · rw [markAll_dis_keys]
      have hsub : (t.disappeared.filter
          (fun p => !(decide (t.max_disappeared < p.2 + 1)))).map (fun p => p.1)
          |>.Sublist (t.disappeared.map (fun p => p.1)) :=
        (List.filter_sublist _).map _
      exact h4.sublist hsub
  · intro id hid
    rw [homem] at hid
    exact hid.1

theorem update_nil_eq (t : CentroidTracker) :
    (t.update []).1 = markAllDisappeared t := by
  simp [CentroidTracker.update]

theorem iterate_empty_max (t : CentroidTracker) : ∀ k : ℕ,
    ((fun s => (CentroidTracker.update s []).1)^[k] t).max_disappeared
      = t.max_disappeared := by
  intro k
  induction k with
  | zero => rfl
  | succ k ih =>
      rw [Function.iterate_succ_apply']
      rw [update_nil_eq]
      rw [(markAll_next_max _).2]
      exact ih

theorem iterate_empty_counts (t : CentroidTracker) : ∀ k : ℕ,
    ∀ p ∈ ((fun s => (CentroidTracker.update s []).1)^[k + 1] t).disappeared,
      ∃ c0 : ℕ, p.2 = c0 + (k + 1) ∧ p.2 ≤ t.max_disappeared := by
  intro k
  induction k with
  | zero =>
      intro p hp
      rw [Function.iterate_one, update_nil_eq] at hp
      obtain ⟨hle, c0, -, hc⟩ := markAll_counts t p hp
      exact ⟨c0, hc, hle⟩
  | succ k ih =>
      intro p hp
      rw [Function.iterate_succ_apply', update_nil_eq] at hp
      obtain ⟨hle, c1, hc1mem, hc⟩ :=
        markAll_counts ((fun s => (CentroidTracker.update s []).1)^[k + 1] t) p hp
      obtain ⟨c0, hceq, -⟩ := ih (p.1, c1) hc1mem
      refine ⟨c0, ?_, ?_⟩
      · simp only at hceq
        omega
      · rw [iterate_empty_max t (k + 1)] at hle
        exact hle

theorem iterate_empty_keysOk (t : CentroidTracker) (hk : KeysOk t) : ∀ k : ℕ,
    KeysOk ((fun s => (CentroidTracker.update s []).1)^[k] t) := by
  intro k
  induction k with
  | zero => exact hk
  | succ k ih =>
      rw [Function.iterate_succ_apply', update_nil_eq]
      exact (markAll_keysOk _ ih).1

theorem iterate_empty_retires (t : CentroidTracker) (hk : KeysOk t) :
    ((fun s => (CentroidTracker.update s []).1)^[t.max_disappeared + 1] t).objects
      = [] := by
  have hdis : ((fun s => (CentroidTracker.update s []).1)^[t.max_disappeared + 1]
      t).disappeared = [] := by
    cases hcase : ((fun s => (CentroidTracker.update s []).1)^[t.max_disappeared + 1]
        t).disappeared with
    | nil => rfl
    | cons p rest =>
        exfalso
        have hp : p ∈ ((fun s => (CentroidTracker.update s []).1)^[t.max_disappeared + 1]
            t).disappeared := by
          rw [hcase]; exact List.mem_cons_self _ _
        obtain ⟨c0, hceq, hle⟩ := iterate_empty_counts t t.max_disappeared p hp
        omega
  have hko := iterate_empty_keysOk t hk (t.max_disappeared + 1)
  have hempty : ((fun s => (CentroidTracker.update s []).1)^[t.max_disappeared + 1]
      t).objects.map (fun p => p.1) = [] := by
    rw [List.eq_nil_iff_forall_not_mem]
    intro id hid
    have := hko.1 id hid
    rw [hdis] at this
    simp at this
  exact List.map_eq_nil_iff.mp hempty

theorem processUnusedRows_next_max (ids : List ℕ) : ∀ (rows : List ℕ)
    (t : CentroidTracker),
    (processUnusedRows ids rows t).next_object_id = t.next_object_id ∧
    (processUnusedRows ids rows t).max_disappeared = t.max_disappeared := by
  intro rows
  induction rows with
  | nil => intro t; exact ⟨rfl, rfl⟩
  | cons r rest ih =>
      intro t
      rw [processUnusedRows]
      by_cases hd : t.max_disappeared < (alookup t.disappeared (ids.getD r 0)).getD 0 + 1
      · rw [if_pos hd]
        exact ih (t.deregister (ids.getD r 0))
      · rw [if_neg hd]
        exact ih _

theorem zip_argmin_cols (rows : List ℕ) (f : ℕ → ℕ) :
    rows.zip (rows.map f) = rows.map (fun r => (r, f r)) := by
  have h := List.zip_map' (id : ℕ → ℕ) f rows
  simpa using h

/-! ## Claim C1 — the greedy matching of `update` -/

/-- Tracker with two live tracks at centroids `(0,0)` (id 0) and `(1,0)`
(id 1), built by a first `update` from a fresh tracker. -/
def greedyCexStart : CentroidTracker × List (ℕ × Box) :=
  (CentroidTracker.mk0 30).update [⟨-1, 0, 1, 0⟩, ⟨0, 0, 2, 0⟩]

/-- Second update: two boxes with centroids `(0,0)` and `(100,0)`.  Both
rows' precomputed argmin column is column 0. -/
def greedyCexRun : CentroidTracker × List (ℕ × Box) :=
  greedyCexStart.1.update [⟨-2, -2, 2, 2⟩, ⟨98, -2, 102, 2⟩]

/-- C1 (counterexample): the claim says each row, in order of ascending min
distance, is matched to its nearest still-unused column, which here would
match track 1 (row min distance 1) to column 1, the box at `(100,0)`.  The
source instead precomputes each row's argmin over all columns once
(tracker.py:103); track 1's argmin column 0 is already used by track 0, so
the pair is skipped: track 1 is left unmatched and the box at `(100,0)` is
registered as a brand-new track 2. -/
theorem greedy_no_rematch_cex :
    greedyCexRun.2 = [(0, ⟨-2, -2, 2, 2⟩), (2, ⟨98, -2, 102, 2⟩)] ∧
    (1, (⟨98, -2, 102, 2⟩ : Box)) ∉ greedyCexRun.2 := by
  have h : greedyCexRun.2 = [(0, ⟨-2, -2, 2, 2⟩), (2, ⟨98, -2, 102, 2⟩)] := by
    norm_num [greedyCexRun, greedyCexStart, CentroidTracker.update,
      CentroidTracker.mk0, registerAll, centroidOf, CentroidTracker.register,
      CentroidTracker.deregister, dist2, listMin, argminIdx, argsortLe,
      selectedPairs, applyMatches, processUnusedRows, alookup, aset,
      markAllDisappeared, distMatrixOf, rowsOf, colsOf, selOf, updateMatched,
      updateUnusedRows, updateT2, updateNewItems, updateReg,
      List.insertionSort, List.orderedInsert, List.range_succ, List.indexOf,
      List.findIdx, List.findIdx.go]
  refine ⟨h, ?_⟩
  rw [h]
  decide

/-- C1 (amended): with non-empty boxes and a non-empty track set, `update`
performs the source's greedy matching: rows are processed in ascending
order of their minimum distance (a permutation of all rows); each row's
column is precomputed once, before the loop, as that row's argmin over ALL
columns with ties broken by the first index; a pair is kept only if neither
its row nor its precomputed column is already used (used rows/columns are
never matched again), and a pair whose precomputed column is already used
is skipped outright — its row is matched to nothing rather than re-matched
to the nearest unused column; every update result is either such a kept
greedy match or a newly registered track. -/
theorem update_greedy_amended (t : CentroidTracker) (boxes : List Box)
    (hb : boxes ≠ []) (ho : t.objects ≠ []) :
    List.Sorted (fun i j => ((distMatrixOf t boxes).map listMin).getD i 0
      ≤ ((distMatrixOf t boxes).map listMin).getD j 0) (rowsOf t boxes) ∧
    (rowsOf t boxes).Perm (List.range t.objects.length) ∧
    (∀ r, r < t.objects.length →
      (∀ j, j < boxes.length →
        ((distMatrixOf t boxes).getD r []).getD
            (argminIdx ((distMatrixOf t boxes).getD r [])) 0
          ≤ ((distMatrixOf t boxes).getD r []).getD j 0) ∧
      (∀ j, j < argminIdx ((distMatrixOf t boxes).getD r []) →
        ((distMatrixOf t boxes).getD r []).getD
            (argminIdx ((distMatrixOf t boxes).getD r [])) 0
          < ((distMatrixOf t boxes).getD r []).getD j 0)) ∧
    ((selOf t boxes).map (fun p => p.1)).Nodup ∧
    ((selOf t boxes).map (fun p => p.2)).Nodup ∧
    (∀ p ∈ (rowsOf t boxes).zip (colsOf t boxes), p ∉ selOf t boxes →
      p.1 ∉ (selOf t boxes).map (fun q => q.1)) ∧
    (∀ p ∈ (t.update boxes).2,
      (∃ rc ∈ selOf t boxes,
        p = ((t.objects.map (fun q => q.1)).getD rc.1 0, boxes.getD rc.2 default) ∧
        rc.2 = argminIdx ((distMatrixOf t boxes).getD rc.1 [])) ∨
      t.next_object_id ≤ p.1) := by
  have hDlen : (distMatrixOf t boxes).length = t.objects.length := by
    simp [distMatrixOf]
  have hrow_len : ∀ r, r < t.objects.length →
      ((distMatrixOf t boxes).getD r []).length = boxes.length := by
    intro r hr
    have hrD : r < (distMatrixOf t boxes).length := by rw [hDlen]; exact hr
    rw [List.getD_eq_getElem _ _ hrD]
    simp [distMatrixOf]
  have hrow_ne : ∀ r, r < t.objects.length →
      (distMatrixOf t boxes).getD r [] ≠ [] := by
    intro r hr
    have := hrow_len r hr
    intro hc
    rw [hc] at this
    simp at this
    exact hb (List.length_eq_zero.mp this.symm)
  have hperm : (rowsOf t boxes).Perm (List.range t.objects.length) := by
    have := argsortLe_perm ((distMatrixOf t boxes).map listMin)
    simpa [rowsOf, List.length_map, hDlen] using this
  have hrows_nodup : (rowsOf t boxes).Nodup :=
    hperm.nodup_iff.mpr (List.nodup_range _)
  have hpairs : (rowsOf t boxes).zip (colsOf t boxes)
      = (rowsOf t boxes).map
          (fun r => (r, argminIdx ((distMatrixOf t boxes).getD r []))) := by
    rw [colsOf]
    exact zip_argmin_cols _ _
  have hpairs_fst : ((rowsOf t boxes).zip (colsOf t boxes)).map (fun p => p.1)
      = rowsOf t boxes := by
    rw [hpairs, List.map_map]
    have hfe : ((fun (p : ℕ × ℕ) => p.1) ∘
        fun r => (r, argminIdx ((distMatrixOf t boxes).getD r []))) = fun r => r := rfl
    rw [hfe]
    simp
  refine ⟨argsortLe_sorted _, hperm, ?_, selectedPairs_fst_nodup _ _ _,
    selectedPairs_snd_nodup _ _ _, ?_, ?_⟩
  · intro r hr
    constructor
    · intro j hj
      refine argminIdx_min (hrow_ne r hr) j ?_
      rw [hrow_len r hr]
      exact hj
    · intro j hj
      exact argminIdx_first (hrow_ne r hr) j hj
  · intro p hp hns
    refine selectedPairs_skipped_fst _ _ _ ?_ p hp hns
    rw [hpairs_fst]
    exact hrows_nodup
  · intro p hp
    have hbE : boxes.isEmpty = false := by
      cases boxes with
      | nil => exact absurd rfl hb
      | cons x xs => rfl
    have hoE : t.objects.isEmpty = false := by
      cases hobj : t.objects with
      | nil => exact absurd hobj ho
      | cons x xs => rfl
    rw [CentroidTracker.update] at hp
    simp only [hbE, hoE, Bool.false_eq_true, if_false] at hp
    rw [List.mem_append] at hp
    rcases hp with hp | hp
    · left
      rw [updateMatched, applyMatches_results] at hp
      obtain ⟨rc, hrc, rfl⟩ := List.mem_map.mp hp
      refine ⟨rc, hrc, rfl, ?_⟩
      have hsub := (selectedPairs_sublist
        ((rowsOf t boxes).zip (colsOf t boxes)) [] []).mem hrc
      rw [hpairs] at hsub
      obtain ⟨r, -, hform⟩ := List.mem_map.mp hsub
      rw [← hform]
    · right
      rw [updateReg] at hp
      have hids := (registerAll_spec (updateNewItems t boxes) (updateT2 t boxes)).2.2.1
      have hp1 : p.1 ∈ List.range' (updateT2 t boxes).next_object_id
          (updateNewItems t boxes).length := by
        rw [← hids]
        exact List.mem_map.mpr ⟨p, hp, rfl⟩
      have hge := (List.mem_range'_1.mp hp1).1
      have hnext1 : (updateT2 t boxes).next_object_id
          = (updateMatched t boxes).1.next_object_id := by
        rw [updateT2]
        exact (processUnusedRows_next_max _ _ _).1
      have hnext2 : (updateMatched t boxes).1.next_object_id = t.next_object_id := by
        rw [updateMatched]
        exact (applyMatches_next_max _ _ _ _ _).1
      rw [hnext1, hnext2] at hge
      exact hge

/-- Witness for C1's amended theorem at the two-track counterexample
state. -/
theorem update_greedy_amended_witness :
    (rowsOf greedyCexStart.1 [⟨-2, -2, 2, 2⟩, ⟨98, -2, 102, 2⟩]).Perm
      (List.range greedyCexStart.1.objects.length) := by
  have h := update_greedy_amended greedyCexStart.1
    [⟨-2, -2, 2, 2⟩, ⟨98, -2, 102, 2⟩] (by simp) ?_
  · exact h.2.1
  · norm_num [greedyCexStart, CentroidTracker.update, CentroidTracker.mk0,
      registerAll, centroidOf, CentroidTracker.register]
    simp

/-! ## Claim C9 — id monotonicity, no reuse, retirement -/

theorem sorted_lt_rangeAux (s n : ℕ) : List.Sorted (· < ·) (List.range' s n) := by
  have h := List.pairwise_lt_range' s n
  simpa [List.Sorted] using h

theorem selOf_row_lt (t : CentroidTracker) (boxes : List Box) :
    ∀ rc ∈ selOf t boxes, rc.1 < t.objects.length := by
  intro rc hrc
  have hsub := (selectedPairs_sublist
    ((rowsOf t boxes).zip (colsOf t boxes)) [] []).mem hrc
  have hpairs : (rowsOf t boxes).zip (colsOf t boxes)
      = (rowsOf t boxes).map
          (fun r => (r, argminIdx ((distMatrixOf t boxes).getD r []))) := by
    rw [colsOf]
    exact zip_argmin_cols _ _
  rw [hpairs] at hsub
  obtain ⟨r, hr, hform⟩ := List.mem_map.mp hsub
  rw [rowsOf] at hr
  have hperm := argsortLe_perm ((distMatrixOf t boxes).map listMin)
  have hrmem := hperm.mem_iff.mp hr
  rw [List.mem_range, List.length_map] at hrmem
  rw [← hform]
  simpa [distMatrixOf] using hrmem

theorem updateMatched_keys (t : CentroidTracker) (boxes : List Box)
    (hk : KeysOk t) :
    (updateMatched t boxes).1.objects.map (fun p => p.1)
        = t.objects.map (fun p => p.1) ∧
    (updateMatched t boxes).1.disappeared.map (fun p => p.1)
        = t.disappeared.map (fun p => p.1) := by
  rw [updateMatched]
  apply applyMatches_keys
  · intro rc hrc
    have hlt := selOf_row_lt t boxes rc hrc
    have hlen : rc.1 < (t.objects.map (fun p => p.1)).length := by
      rw [List.length_map]
      exact hlt
    rw [List.getD_eq_getElem _ _ hlen]
    exact List.getElem_mem hlen
  · intro rc hrc
    have hlt := selOf_row_lt t boxes rc hrc
    have hlen : rc.1 < (t.objects.map (fun p => p.1)).length := by
      rw [List.length_map]
      exact hlt
    apply hk.1
    rw [List.getD_eq_getElem _ _ hlen]
    exact List.getElem_mem hlen

theorem updateT2_facts (t : CentroidTracker) (boxes : List Box) (hk : KeysOk t) :
    KeysOk (updateT2 t boxes) ∧
    (updateT2 t boxes).next_object_id = t.next_object_id ∧
    (updateT2 t boxes).max_disappeared = t.max_disappeared ∧
    (∀ id ∈ (updateT2 t boxes).objects.map (fun p => p.1),
      id ∈ t.objects.map (fun p => p.1)) := by
  obtain ⟨hmo, hmd⟩ := updateMatched_keys t boxes hk
  have hk1 : KeysOk (updateMatched t boxes).1 := by
    obtain ⟨h1, h2, h3, h4⟩ := hk
    refine ⟨?_, ?_, ?_, ?_⟩
    · intro id hid
      rw [hmd]
      rw [hmo] at hid
      exact h1 id hid
    · intro id hid
      rw [hmo]
      rw [hmd] at hid
      exact h2 id hid
    · rw [hmo]; exact h3
    · rw [hmd]; exact h4
  have hrowlt : ∀ r ∈ updateUnusedRows t boxes, r < t.objects.length := by
    intro r hr
    rw [updateUnusedRows] at hr
    rw [List.mem_filter] at hr
    have := List.mem_range.mp hr.1
    simpa [distMatrixOf] using this
  have hmem1 : ∀ r ∈ updateUnusedRows t boxes,
      (t.objects.map (fun p => p.1)).getD r 0
        ∈ (updateMatched t boxes).1.objects.map (fun p => p.1) := by
    intro r hr
    rw [hmo]
    have hlen : r < (t.objects.map (fun p => p.1)).length := by
      rw [List.length_map]
      exact hrowlt r hr
    rw [List.getD_eq_getElem _ _ hlen]
    exact List.getElem_mem hlen
  have hnd1 : ((updateUnusedRows t boxes).map
      (fun r => (t.objects.map (fun p => p.1)).getD r 0)).Nodup := by
    have hbase : (updateUnusedRows t boxes).Nodup := by
      rw [updateUnusedRows]
      exact (List.nodup_range _).filter _
    refine (List.nodup_map_iff_inj_on hbase).mpr ?_
    intro x hx y hy hxy
    have hxl : x < (t.objects.map (fun p => p.1)).length := by
      rw [List.length_map]; exact hrowlt x hx
    have hyl : y < (t.objects.map (fun p => p.1)).length := by
      rw [List.length_map]; exact hrowlt y hy
    rw [List.getD_eq_getElem _ _ hxl, List.getD_eq_getElem _ _ hyl] at hxy
    exact (List.Nodup.getElem_inj_iff hk.2.2.1).mp hxy
  obtain ⟨c1, c2, c3, c4⟩ := processUnusedRows_spec (t.objects.map (fun p => p.1))
    (updateUnusedRows t boxes) (updateMatched t boxes).1 hk1 hmem1 hnd1
  rw [updateT2]
  refine ⟨c1, ?_, ?_, ?_⟩
  · rw [c2, updateMatched]
    exact (applyMatches_next_max _ _ _ _ _).1
  · rw [c3, updateMatched]
    exact (applyMatches_next_max _ _ _ _ _).2
  · intro id hid
    have := c4 id hid
    rw [hmo] at this
    exact this

theorem update_register_branch (t : CentroidTracker) (boxes : List Box)
    (hbE : boxes.isEmpty = false) (hoE : t.objects.isEmpty = true) :
    t.update boxes = registerAll t ((boxes.map centroidOf).zip boxes) := by
  rw [CentroidTracker.update]
  simp [hbE, hoE]

theorem update_match_branch (t : CentroidTracker) (boxes : List Box)
    (hbE : boxes.isEmpty = false) (hoE : t.objects.isEmpty = false) :
    t.update boxes
      = ((updateReg t boxes).1, (updateMatched t boxes).2 ++ (updateReg t boxes).2) := by
  rw [CentroidTracker.update]
  simp [hbE, hoE]

/-- C9: track ids are assigned in strictly increasing order and never
reused.  For a well-formed tracker, `update` preserves well-formedness;
`next_object_id` never decreases; every returned id is below the new
`next_object_id`; every returned id is either an existing track's id
(all of which are below the old `next_object_id`) or a newly issued id at
least the old `next_object_id`; the newly issued ids, in issue order, form
a strictly increasing list; and `max_disappeared + 1` consecutive
empty-detection updates retire every track, leaving no track to query. -/
theorem tracker_ids_monotone (t : CentroidTracker) (hwf : TrackerWF t)
    (boxes : List Box) :
    TrackerWF (t.update boxes).1 ∧
    t.next_object_id ≤ (t.update boxes).1.next_object_id ∧
    (∀ p ∈ (t.update boxes).2, p.1 < (t.update boxes).1.next_object_id) ∧
    (∀ p ∈ (t.update boxes).2,
      p.1 ∈ t.objects.map (fun q => q.1) ∨ t.next_object_id ≤ p.1) ∧
    List.Sorted (· < ·)
      (((t.update boxes).2.map (fun p => p.1)).filter
        (fun i => t.next_object_id ≤ i)) ∧
    ((fun s => (CentroidTracker.update s []).1)^[t.max_disappeared + 1] t).objects
      = [] := by
  obtain ⟨hk, hbound⟩ := hwf
  have h6 := iterate_empty_retires t hk
  by_cases hbe : boxes.isEmpty = true
  · have hup : t.update boxes = (markAllDisappeared t, []) := by
      rw [CentroidTracker.update, if_pos hbe]
    obtain ⟨hko, hsub⟩ := markAll_keysOk t hk
    rw [hup]
    refine ⟨⟨hko, ?_⟩, ?_, ?_, ?_, ?_, h6⟩
    · intro id hid
      rw [(markAll_next_max t).1]
      exact hbound id (hsub id hid)
    · exact le_of_eq (markAll_next_max t).1.symm
    · intro p hp
      simp at hp
    · intro p hp
      simp at hp
    · simp
  · have hbE : boxes.isEmpty = false := Bool.eq_false_iff.mpr hbe
    by_cases hoe : t.objects.isEmpty = true
    · have hup := update_register_branch t boxes hbE hoe
      have hobjnil : t.objects = [] := by
        cases hobj : t.objects with
        | nil => rfl
        | cons x xs => rw [hobj] at hoe; simp at hoe
      have hdisnil : t.disappeared = [] := by
        have hmap : t.disappeared.map (fun p => p.1) = [] := by
          rw [List.eq_nil_iff_forall_not_mem]
          intro id hid
          have := hk.2.1 id hid
          rw [hobjnil] at this
          simp at this
        exact List.map_eq_nil_iff.mp hmap
      obtain ⟨r1, r2, r3, r4, r5⟩ :=
        registerAll_spec ((boxes.map centroidOf).zip boxes) t
      rw [hobjnil] at r4
      rw [hdisnil] at r5
      simp only [List.map_nil, List.nil_append] at r4 r5
      rw [hup]
      refine ⟨⟨⟨?_, ?_, ?_, ?_⟩, ?_⟩, ?_, ?_, ?_, ?_, h6⟩
      · intro id hid
        rw [r5]
        rw [r4] at hid
        exact hid
      · intro id hid
        rw [r4]
        rw [r5] at hid
        exact hid
      · rw [r4]
        simp [List.nodup_range']
      · rw [r5]
        simp [List.nodup_range']
      · intro id hid
        rw [r4] at hid
        rw [r1]
        have := List.mem_range'_1.mp hid
        omega
      · rw [r1]
        omega
      · intro p hp
        have hmem : p.1 ∈ List.range' t.next_object_id
            ((boxes.map centroidOf).zip boxes).length := by
          rw [← r3]
          exact List.mem_map.mpr ⟨p, hp, rfl⟩
        rw [r1]
        have := List.mem_range'_1.mp hmem
        omega
      · intro p hp
        right
        have hmem : p.1 ∈ List.range' t.next_object_id
            ((boxes.map centroidOf).zip boxes).length := by
          rw [← r3]
          exact List.mem_map.mpr ⟨p, hp, rfl⟩
        exact (List.mem_range'_1.mp hmem).1
      · rw [r3]
        rw [List.filter_eq_self.mpr ?hall]
        · exact sorted_lt_rangeAux _ _
        case hall =>
          intro a ha
          have := (List.mem_range'_1.mp ha).1
          simpa using this
    · have hoE : t.objects.isEmpty = false := Bool.eq_false_iff.mpr hoe
      have hup := update_match_branch t boxes hbE hoE
      obtain ⟨hk2, ht2next, ht2max, ht2sub⟩ := updateT2_facts t boxes hk
      obtain ⟨g1, g2, g3, g4, g5⟩ :=
        registerAll_spec (updateNewItems t boxes) (updateT2 t boxes)
      have ht2obj_lt : ∀ id ∈ (updateT2 t boxes).objects.map (fun p => p.1),
          id < t.next_object_id := fun id hid => hbound id (ht2sub id hid)
      have ht2dis_lt : ∀ id ∈ (updateT2 t boxes).disappeared.map (fun p => p.1),
          id < t.next_object_id := fun id hid => ht2obj_lt id (hk2.2.1 id hid)
      have hmres : (updateMatched t boxes).2
          = (selOf t boxes).map (fun rc =>
              ((t.objects.map (fun p => p.1)).getD rc.1 0, boxes.getD rc.2 default)) := by
        rw [updateMatched]
        exact applyMatches_results _ _ _ _ _
      have hmres_lt : ∀ p ∈ (updateMatched t boxes).2, p.1 < t.next_object_id := by
        intro p hp
        rw [hmres] at hp
        obtain ⟨rc, hrc, rfl⟩ := List.mem_map.mp hp
        have hlen : rc.1 < (t.objects.map (fun p => p.1)).length := by
          rw [List.length_map]
          exact selOf_row_lt t boxes rc hrc
        apply hbound
        rw [List.getD_eq_getElem _ _ hlen]
        exact List.getElem_mem hlen
      have hmres_mem : ∀ p ∈ (updateMatched t boxes).2,
          p.1 ∈ t.objects.map (fun q => q.1) := by
        intro p hp
        rw [hmres] at hp
        obtain ⟨rc, hrc, rfl⟩ := List.mem_map.mp hp
        have hlen : rc.1 < (t.objects.map (fun p => p.1)).length := by
          rw [List.length_map]
          exact selOf_row_lt t boxes rc hrc
        rw [List.getD_eq_getElem _ _ hlen]
        exact List.getElem_mem hlen
      have hreg_ids : (updateReg t boxes).2.map (fun p => p.1)
          = List.range' (updateT2 t boxes).next_object_id
              (updateNewItems t boxes).length := by
        rw [updateReg]
        exact g3
      have hreg_ge : ∀ p ∈ (updateReg t boxes).2, t.next_object_id ≤ p.1 := by
        intro p hp
        have hmem : p.1 ∈ List.range' (updateT2 t boxes).next_object_id
            (updateNewItems t boxes).length := by
          rw [← hreg_ids]
          exact List.mem_map.mpr ⟨p, hp, rfl⟩
        have := (List.mem_range'_1.mp hmem).1
        rw [ht2next] at this
        exact this
      have hreg_lt : ∀ p ∈ (updateReg t boxes).2,
          p.1 < (updateT2 t boxes).next_object_id + (updateNewItems t boxes).length := by
        intro p hp
        have hmem : p.1 ∈ List.range' (updateT2 t boxes).next_object_id
            (updateNewItems t boxes).length := by
          rw [← hreg_ids]
          exact List.mem_map.mpr ⟨p, hp, rfl⟩
        exact (List.mem_range'_1.mp hmem).2
      have hnextfin : (updateReg t boxes).1.next_object_id
          = (updateT2 t boxes).next_object_id + (updateNewItems t boxes).length := by
        rw [updateReg]
        exact g1
      rw [hup]
      refine ⟨⟨⟨?_, ?_, ?_, ?_⟩, ?_⟩, ?_, ?_, ?_, ?_, h6⟩
      · intro id hid
        rw [updateReg] at hid ⊢
        rw [g4] at hid
        rw [g5]
        rw [List.mem_append] at hid ⊢
        rcases hid with hid | hid
        · exact Or.inl (hk2.1 id hid)
        · exact Or.inr hid
      · intro id hid
        rw [updateReg] at hid ⊢
        rw [g5] at hid
        rw [g4]
        rw [List.mem_append] at hid ⊢
        rcases hid with hid | hid
        · exact Or.inl (hk2.2.1 id hid)
        · exact Or.inr hid
      · rw [updateReg, g4]
        refine List.Nodup.append hk2.2.2.1 (by simp [List.nodup_range']) ?_
        intro a ha hb
        have h1 := ht2obj_lt a ha
        have h2 := (List.mem_range'_1.mp hb).1
        rw [ht2next] at h2
        omega
      · rw [updateReg, g5]
        refine List.Nodup.append hk2.2.2.2 (by simp [List.nodup_range']) ?_
        intro a ha hb
        have h1 := ht2dis_lt a ha
        have h2 := (List.mem_range'_1.mp hb).1
        rw [ht2next] at h2
        omega
      · intro id hid
        rw [updateReg] at hid ⊢
        rw [g4, List.mem_append] at hid
        rw [g1]
        rcases hid with hid | hid
        · have h := ht2obj_lt id hid
          rw [ht2next]
          omega
        · have := (List.mem_range'_1.mp hid).2
          omega
      · rw [hnextfin, ht2next]
        omega
      · intro p hp
        rw [List.mem_append] at hp
        rw [hnextfin]
        rcases hp with hp | hp
        · have := hmres_lt p hp
          rw [ht2next]
          omega
        · exact hreg_lt p hp
      · intro p hp
        rw [List.mem_append] at hp
        rcases hp with hp | hp
        · exact Or.inl (hmres_mem p hp)
        · exact Or.inr (hreg_ge p hp)
      · rw [List.map_append, List.filter_append]
        have hleft : ((updateMatched t boxes).2.map (fun p => p.1)).filter
            (fun i => t.next_object_id ≤ i) = [] := by
          rw [List.filter_eq_nil_iff]
          intro a ha
          obtain ⟨p, hp, rfl⟩ := List.mem_map.mp ha
          have := hmres_lt p hp
          simp only [decide_eq_true_eq]
          omega
        have hright : ((updateReg t boxes).2.map (fun p => p.1)).filter
            (fun i => t.next_object_id ≤ i)
            = (updateReg t boxes).2.map (fun p => p.1) := by
          rw [List.filter_eq_self]
          intro a ha
          obtain ⟨p, hp, rfl⟩ := List.mem_map.mp ha
          have := hreg_ge p hp
          simp only [decide_eq_true_eq]
          omega
        rw [hleft, hright, List.nil_append, hreg_ids]
        exact sorted_lt_rangeAux _ _

/-- Witness for C9 on a fresh tracker receiving one box. -/
theorem tracker_ids_monotone_witness :
    (CentroidTracker.mk0 30).next_object_id
      ≤ ((CentroidTracker.mk0 30).update [⟨0, 0, 2, 2⟩]).1.next_object_id := by
  have hwf0 : TrackerWF (CentroidTracker.mk0 30) := by
    refine ⟨⟨?_, ?_, ?_, ?_⟩, ?_⟩ <;> simp [CentroidTracker.mk0]
  exact (tracker_ids_monotone (CentroidTracker.mk0 30) hwf0 [⟨0, 0, 2, 2⟩]).2.1

end MaskGuard
